import Mathlib

/-!
Shallow embedding of the NCCL topology-graph builder (src/src/graph/topo.cc)
and proofs of the specification's claims about it.

The C code stores nodes in fixed-capacity per-type arrays inside
`struct ncclTopoSystem` and cross-references nodes by raw pointers into
those arrays.  The embedding replaces a node pointer by the pair
(type, slot index) — `ncclTopoNodeRef` — which is exactly the information
pointer arithmetic on those arrays uses (`remNode >= delNode` compares
slots within one typed array, `remNode--` decrements a slot).  A node's
sentinel-terminated link array becomes a `List` of its live entries; the
raw array-with-sentinel view, which one safety claim is about, is embedded
separately further down (`RawLink`).  Widths are C floats; they are embedded
as `ℚ`, treating the width as the abstract bandwidth unit the spec
describes (every width the program computes here is a small dyadic number,
exactly representable, e.g. 16*60/80 = 12.0).
-/

/-! ## Node and link kind constants

Values follow the `topoNodeTypeStr` / `topoLinkTypeStr` tables at
topo.cc:22-23 (the defining header is not part of the repository slice;
positions in those string tables fix the numeric values). -/

def GPU : Nat := 0
def PCI : Nat := 1
def NVS : Nat := 2
def CPU : Nat := 3
def NIC : Nat := 4
def NET : Nat := 5

def NCCL_TOPO_NODE_TYPES : Nat := 6

def LINK_LOC : Nat := 0
def LINK_NVL : Nat := 1
def LINK_PCI : Nat := 2
def LINK_SYS : Nat := 5
def LINK_NET : Nat := 6

/-- Modelled from the spec: the fixed per-type node capacity
(`NCCL_TOPO_MAX_NODES`, defined in a header missing from the repository
slice; "node count per type ≤ fixed capacity (violation is fatal)").  The
concrete value does not matter to any claim, only that it is finite. -/
def NCCL_TOPO_MAX_NODES : Nat := 256

/-- Modelled from the spec: the undefined-payload marker
(`NCCL_TOPO_UNDEF`, from the missing header). -/
def NCCL_TOPO_UNDEF : Int := -1

/-- Modelled from the spec: the loopback-link width constant (`LOC_WIDTH`
from the missing header; the spec calls it the "local width" of the GPU
self-loop).  Its concrete value is irrelevant to every claim. -/
def LOC_WIDTH : ℚ := 5000

/-- Modelled from the spec: NVLink per-lane width for compute capability 60
(`PASCAL_NVLINK_WIDTH` from the missing header). -/
def PASCAL_NVLINK_WIDTH : ℚ := 18

/-- Modelled from the spec: NVLink per-lane width for later GPUs
(`VOLTA_NVLINK_WIDTH` from the missing header). -/
def VOLTA_NVLINK_WIDTH : ℚ := 21

/-! ## Data model -/

/-- A reference to a node: the C code's `struct ncclTopoNode*` pointing into
`system->nodes[ty].nodes[ix]`. -/
structure ncclTopoNodeRef where
  ty : Nat
  ix : Nat
deriving DecidableEq, Repr

/-- One link entry (`struct ncclTopoLink`): kind, width, remote node. -/
structure ncclTopoLink where
  type : Nat
  width : ℚ
  remNode : ncclTopoNodeRef
deriving DecidableEq, Repr

/-- A node (`struct ncclTopoNode`).  The C union payload is flattened into
one record; only fields some claim reads are carried.  `pathsCpu` embeds
`paths[CPU][c].count`, the per-CPU hop counts: the path tables are
populated by an external collaborator (the path-search pass is not in the
repository slice), so their content is an arbitrary field here. -/
structure ncclTopoNode where
  type : Nat
  id : Nat
  links : List ncclTopoLink
  rank : Int := 0
  dev : Int := 0
  cudaCompCap : Int := 0
  gdrSupport : Int := 0
  arch : Int := 0
  vendor : Int := 0
  model : Int := 0
  affinity : Option String := none
  asic : Nat := 0
  port : Int := 0
  netWidth : ℚ := 0
  collSupport : Int := 0
  pathsCpu : List Nat := []
deriving DecidableEq, Repr

instance : Inhabited ncclTopoLink := ⟨⟨0, 0, ⟨0, 0⟩⟩⟩

instance : Inhabited ncclTopoNode := ⟨{ type := 0, id := 0, links := [] }⟩

/-- The system (`struct ncclTopoSystem`): one node list per type, indexed
by the type constants above (`nodes.length = NCCL_TOPO_NODE_TYPES` for
systems the code builds). -/
structure ncclTopoSystem where
  nodes : List (List ncclTopoNode)
deriving DecidableEq, Repr

/-- The empty system `ncclTopoGetSystemFromXml` starts from (calloc'd). -/
def emptySystem : ncclTopoSystem :=
  ⟨List.replicate NCCL_TOPO_NODE_TYPES []⟩

/-- The node list of one type: `system->nodes[t]`. -/
def typeNodes (s : ncclTopoSystem) (t : Nat) : List ncclTopoNode :=
  (s.nodes.get? t).getD []

/-- Dereference a node pointer. -/
def getAt (s : ncclTopoSystem) (r : ncclTopoNodeRef) : Option ncclTopoNode :=
  (s.nodes.get? r.ty).bind fun l => l.get? r.ix

/-! ## Generic indexed-list helpers (with the lemmas the proofs need) -/

def listMapIdxFrom (f : Nat → α → β) (i : Nat) : List α → List β
  | [] => []
  | a :: as => f i a :: listMapIdxFrom f (i + 1) as

def listMapIdx (f : Nat → α → β) (l : List α) : List β :=
  listMapIdxFrom f 0 l

theorem listMapIdxFrom_get? (f : Nat → α → β) (i : Nat) (l : List α) (j : Nat) :
    (listMapIdxFrom f i l)[j]? = (l[j]?).map (f (i + j)) := by
  induction l generalizing i j with
  | nil => simp [listMapIdxFrom]
  | cons a as ih =>
    cases j with
    | zero => simp [listMapIdxFrom]
    | succ j =>
      have h : i + 1 + j = i + (j + 1) := by omega
      simp only [listMapIdxFrom, List.getElem?_cons_succ]
      rw [ih, h]

theorem listMapIdx_get? (f : Nat → α → β) (l : List α) (j : Nat) :
    (listMapIdx f l)[j]? = (l[j]?).map (f j) := by
  simpa using listMapIdxFrom_get? f 0 l j

theorem listMapIdxFrom_length (f : Nat → α → β) (i : Nat) (l : List α) :
    (listMapIdxFrom f i l).length = l.length := by
  induction l generalizing i with
  | nil => rfl
  | cons a as ih => simp [listMapIdxFrom, ih]

theorem listMapIdx_length (f : Nat → α → β) (l : List α) :
    (listMapIdx f l).length = l.length :=
  listMapIdxFrom_length f 0 l

theorem eraseIdx_get? (l : List α) (i j : Nat) :
    (l.eraseIdx i)[j]? = if j < i then l[j]? else l[j + 1]? := by
  induction l generalizing i j with
  | nil => simp [List.eraseIdx]
  | cons a as ih =>
    cases i with
    | zero => simp [List.eraseIdx]
    | succ i =>
      cases j with
      | zero => simp [List.eraseIdx]
      | succ j =>
        simp only [List.eraseIdx, List.getElem?_cons_succ]
        rw [ih]
        by_cases h : j < i <;> simp [h, Nat.succ_lt_succ_iff]

/-- Update one node in place (writing through the C pointer). -/
def updateAt (s : ncclTopoSystem) (r : ncclTopoNodeRef)
    (f : ncclTopoNode → ncclTopoNode) : ncclTopoSystem :=
  ⟨listMapIdx (fun ti l =>
      if ti = r.ty then
        listMapIdx (fun ni n => if ni = r.ix then f n else n) l
      else l) s.nodes⟩

theorem getAt_updateAt (s : ncclTopoSystem) (r r' : ncclTopoNodeRef)
    (f : ncclTopoNode → ncclTopoNode) :
    getAt (updateAt s r f) r' =
      if r' = r then (getAt s r).map f else getAt s r' := by
  obtain ⟨ty, ix⟩ := r
  obtain ⟨ty', ix'⟩ := r'
  by_cases hty : ty' = ty
  · subst hty
    by_cases hix : ix' = ix
    · subst hix
      simp only [getAt, updateAt, List.get?_eq_getElem?, listMapIdx_get?]
      cases hl : s.nodes[ty']? with
      | none => simp
      | some l => simp [listMapIdx_get?]
    · have hne : (⟨ty', ix'⟩ : ncclTopoNodeRef) ≠ (⟨ty', ix⟩ : ncclTopoNodeRef) := by
        simp [hix]
      simp only [getAt, updateAt, List.get?_eq_getElem?, listMapIdx_get?]
      cases hl : s.nodes[ty']? with
      | none => simp [hne]
      | some l => simp [listMapIdx_get?, hix, hne]
  · have hne : (⟨ty', ix'⟩ : ncclTopoNodeRef) ≠ (⟨ty, ix⟩ : ncclTopoNodeRef) := by
      simp [hty]
    simp only [getAt, updateAt, List.get?_eq_getElem?, listMapIdx_get?]
    cases hl : s.nodes[ty']? with
    | none => simp [hne, hty]
    | some l => simp [hne, hty]

theorem typeNodes_updateAt_length (s : ncclTopoSystem) (r : ncclTopoNodeRef)
    (f : ncclTopoNode → ncclTopoNode) (t : Nat) :
    (typeNodes (updateAt s r f) t).length = (typeNodes s t).length := by
  simp only [typeNodes, updateAt, List.get?_eq_getElem?, listMapIdx_get?]
  cases h : s.nodes[t]? with
  | none => simp
  | some l =>
    simp only [Option.map_some', Option.getD_some]
    split <;> simp [listMapIdx_length]

/-! ## Registry operations -/

/-- Scan of `ncclTopoGetNode`'s loop body over one typed array: the index of
the first node with the given id (topo.cc:85-93). -/
def getNodeIdx (id : Nat) : List ncclTopoNode → Option Nat
  | [] => none
  | n :: ns => if n.id = id then some 0 else (getNodeIdx id ns).map (· + 1)

/-- Node lookup by (type, id): `ncclTopoGetNode` (topo.cc:85-93).  Absence
is a normal outcome (`none`), not an error. -/
def ncclTopoGetNode (s : ncclTopoSystem) (t : Nat) (id : Nat) :
    Option ncclTopoNodeRef :=
  (getNodeIdx id (typeNodes s t)).map fun i => ⟨t, i⟩

/-- Payload initialisation of a fresh node (topo.cc:100-121): the system is
calloc'd, so unmentioned fields are zero; GPU nodes get a loopback
self-link, GPU/CPU payloads are set to `NCCL_TOPO_UNDEF`, NET payload is
zeroed with port undefined. -/
def initNode (t : Nat) (id : Nat) (slot : Nat) : ncclTopoNode :=
  let base : ncclTopoNode := { type := t, id := id, links := [] }
  if t = GPU then
    { base with
      links := [{ type := LINK_LOC, width := LOC_WIDTH, remNode := ⟨t, slot⟩ }]
      dev := NCCL_TOPO_UNDEF
      rank := NCCL_TOPO_UNDEF
      cudaCompCap := NCCL_TOPO_UNDEF }
  else if t = CPU then
    { base with
      arch := NCCL_TOPO_UNDEF
      vendor := NCCL_TOPO_UNDEF
      model := NCCL_TOPO_UNDEF }
  else if t = NET then
    { base with asic := 0, port := NCCL_TOPO_UNDEF, netWidth := 0 }
  else base

/-- Append a node to one typed array. -/
def appendNode (s : ncclTopoSystem) (t : Nat) (n : ncclTopoNode) :
    ncclTopoSystem :=
  ⟨listMapIdx (fun ti l => if ti = t then l ++ [n] else l) s.nodes⟩

/-- Node creation: `ncclTopoCreateNode` (topo.cc:95-124).  `none` is the
fatal CapacityExceeded error (`ncclInternalError`); otherwise the new
system and a pointer to the created node. -/
def ncclTopoCreateNode (s : ncclTopoSystem) (t : Nat) (id : Nat) :
    Option (ncclTopoSystem × ncclTopoNodeRef) :=
  if (typeNodes s t).length = NCCL_TOPO_MAX_NODES then none
  else
    let slot := (typeNodes s t).length
    some (appendNode s t (initNode t id slot), ⟨t, slot⟩)

/-- The get-or-create upsert pattern ingestion uses for NIC nodes
(topo.cc:361-365 and topo.cc:425-430): lookup before create. -/
def getOrCreateNode (s : ncclTopoSystem) (t : Nat) (id : Nat) :
    Option (ncclTopoSystem × ncclTopoNodeRef) :=
  match ncclTopoGetNode s t id with
  | some r => some (s, r)
  | none => ncclTopoCreateNode s t id

/-! ### connectNodes (topo.cc:149-170) -/

/-- Predicate of the scan at topo.cc:152-154: an existing entry for the
same (remote, kind) pair. -/
def linkMatches (rem : ncclTopoNodeRef) (t : Nat) (l : ncclTopoLink) : Prop :=
  l.remNode = rem ∧ l.type = t

instance (rem : ncclTopoNodeRef) (t : Nat) (l : ncclTopoLink) :
    Decidable (linkMatches rem t l) := by
  unfold linkMatches; infer_instance

/-- Backward insertion step of topo.cc:160-168 over the reversed scanned
prefix: walk back from the entry's position while the previous entry is
strictly narrower, then drop the saved entry there. -/
def insBackAux (e : ncclTopoLink) : List ncclTopoLink → List ncclTopoLink
  | [] => [e]
  | x :: xs => if x.width ≥ e.width then e :: x :: xs else x :: insBackAux e xs

/-- Insert the (re)written entry into the scanned prefix, restoring
descending-width order by the single backward pass. -/
def insertBack (e : ncclTopoLink) (pre : List ncclTopoLink) : List ncclTopoLink :=
  (insBackAux e pre.reverse).reverse

/-- The body of `ncclTopoConnectNodes` on a link list: `pre` is the already
scanned prefix (no match in it), the argument list what is left to scan.
On a match the entry absorbs `width` and is re-positioned; at the sentinel
a fresh entry (calloc width 0) absorbs `width` and is re-positioned. -/
def connectGo (rem : ncclTopoNodeRef) (t : Nat) (w : ℚ)
    (pre : List ncclTopoLink) : List ncclTopoLink → List ncclTopoLink
  | [] => insertBack { type := t, width := w, remNode := rem } pre
  | l :: ls =>
    if linkMatches rem t l then
      insertBack { type := t, width := l.width + w, remNode := rem } pre ++ ls
    else
      connectGo rem t w (pre ++ [l]) ls

/-- Link-list level `ncclTopoConnectNodes(node, remNode, type, width)`
(topo.cc:149-170), acting on `node->links`. -/
def ncclTopoConnectLinks (links : List ncclTopoLink) (rem : ncclTopoNodeRef)
    (t : Nat) (w : ℚ) : List ncclTopoLink :=
  connectGo rem t w [] links

/-- System-level `ncclTopoConnectNodes`. -/
def ncclTopoConnectNodes (s : ncclTopoSystem) (a b : ncclTopoNodeRef)
    (t : Nat) (w : ℚ) : ncclTopoSystem :=
  updateAt s a fun n => { n with links := ncclTopoConnectLinks n.links b t w }

/-! ### removeNode (topo.cc:126-147) -/

/-- Link-list fixup of topo.cc:133-141 for removal of the node at
(`t`, `index`): entries referencing the removed node are dropped (the
inner while + memmove compacts the list), and a surviving entry whose
remote is a same-typed node at or above the removed slot has its slot
decremented (`remNode--`). -/
def removeNodeFixLinks (t : Nat) (index : Nat) : List ncclTopoLink → List ncclTopoLink
  | [] => []
  | l :: ls =>
    if l.remNode = ⟨t, index⟩ then removeNodeFixLinks t index ls
    else if l.remNode.ty = t ∧ index ≤ l.remNode.ix then
      { l with remNode := ⟨t, l.remNode.ix - 1⟩ } :: removeNodeFixLinks t index ls
    else l :: removeNodeFixLinks t index ls

/-- Node removal: `ncclTopoRemoveNode(system, type, index)`
(topo.cc:126-147).  Every node other than the removed one has its links
fixed (the removed node is skipped by the `node == delNode` test; its path
tables are freed, which the embedding has no counterpart for since the node
vanishes), then the typed array is compacted by the final memmove. -/
def ncclTopoRemoveNode (s : ncclTopoSystem) (t : Nat) (index : Nat) :
    ncclTopoSystem :=
  ⟨listMapIdx (fun ti l =>
      let fixed := listMapIdx (fun ni n =>
        if ti = t ∧ ni = index then n
        else { n with links := removeNodeFixLinks t index n.links }) l
      if ti = t then fixed.eraseIdx index else fixed) s.nodes⟩

/-! ## Lemmas about the backward insertion step -/

theorem insBackAux_perm (e : ncclTopoLink) (xs : List ncclTopoLink) :
    List.Perm (insBackAux e xs) (e :: xs) := by
  induction xs with
  | nil => simp [insBackAux]
  | cons x xs ih =>
    simp only [insBackAux]
    split
    · exact List.Perm.refl _
    · exact (List.Perm.cons x ih).trans (List.Perm.swap e x xs)

theorem insertBack_perm (e : ncclTopoLink) (pre : List ncclTopoLink) :
    List.Perm (insertBack e pre) (e :: pre) := by
  unfold insertBack
  refine (List.reverse_perm _).trans ?_
  refine (insBackAux_perm e pre.reverse).trans ?_
  exact List.Perm.cons e (List.reverse_perm pre)

/-- Descending-width order: the invariant the backward insertion step of
`ncclTopoConnectNodes` maintains (topo.cc:160). -/
def linksSorted (links : List ncclTopoLink) : Prop :=
  List.Pairwise (fun a b => b.width ≤ a.width) links

/-- Executable check for `linksSorted` (adjacent pairs suffice since width
comparison is transitive). -/
def linksSortedB : List ncclTopoLink → Bool
  | [] => true
  | [_] => true
  | a :: b :: rest => decide (b.width ≤ a.width) && linksSortedB (b :: rest)

theorem linksSortedB_iff (l : List ncclTopoLink) :
    linksSortedB l = true ↔ linksSorted l := by
  induction l with
  | nil => simp [linksSortedB, linksSorted]
  | cons a l ih =>
    cases l with
    | nil => simp [linksSortedB, linksSorted]
    | cons b rest =>
      simp only [linksSortedB, Bool.and_eq_true, decide_eq_true_eq]
      rw [ih]
      unfold linksSorted
      constructor
      · rintro ⟨hab, hbr⟩
        refine List.pairwise_cons.mpr ⟨?_, hbr⟩
        intro y hy
        rcases List.mem_cons.mp hy with hy | hy
        · subst hy; exact hab
        · exact le_trans ((List.pairwise_cons.mp hbr).1 y hy) hab
      · intro h
        obtain ⟨hall, hbr⟩ := List.pairwise_cons.mp h
        exact ⟨hall b (List.mem_cons_self b rest), hbr⟩

instance (links : List ncclTopoLink) : Decidable (linksSorted links) :=
  decidable_of_iff _ (linksSortedB_iff links)

theorem insBackAux_sorted (e : ncclTopoLink) (xs : List ncclTopoLink)
    (h : List.Pairwise (fun a b => a.width ≤ b.width) xs) :
    List.Pairwise (fun a b => a.width ≤ b.width) (insBackAux e xs) := by
  induction xs with
  | nil => simp [insBackAux]
  | cons x xs ih =>
    rw [List.pairwise_cons] at h
    obtain ⟨hx, hxs⟩ := h
    simp only [insBackAux]
    split
    · rename_i hge
      refine List.pairwise_cons.mpr ⟨?_, List.pairwise_cons.mpr ⟨hx, hxs⟩⟩
      intro b hb
      rcases List.mem_cons.mp hb with hb | hb
      · subst hb; exact hge
      · exact le_trans hge (hx b hb)
    · rename_i hlt
      refine List.pairwise_cons.mpr ⟨?_, ih hxs⟩
      intro b hb
      have hb' := (insBackAux_perm e xs).mem_iff.mp hb
      rcases List.mem_cons.mp hb' with hb' | hb'
      · subst hb'; exact le_of_not_le hlt
      · exact hx b hb'

theorem insertBack_sorted (e : ncclTopoLink) (pre : List ncclTopoLink)
    (h : linksSorted pre) : linksSorted (insertBack e pre) := by
  unfold insertBack linksSorted
  rw [List.pairwise_reverse]
  exact insBackAux_sorted e pre.reverse
    (List.pairwise_reverse.mpr h)

theorem insertBack_mem_width (e : ncclTopoLink) (pre : List ncclTopoLink)
    (x : ncclTopoLink) (hx : x ∈ insertBack e pre) : x = e ∨ x ∈ pre := by
  have := (insertBack_perm e pre).mem_iff.mp hx
  simpa using this

/-! ## Aggregation of connectNodes (claim C2 machinery) -/

/-- Boolean form of the (remote, kind) match used by the scan. -/
def linkMatchB (rem : ncclTopoNodeRef) (t : Nat) (l : ncclTopoLink) : Bool :=
  decide (linkMatches rem t l)

theorem connectGo_filter_zero (rem : ncclTopoNodeRef) (t : Nat) (w : ℚ) :
    ∀ (rest pre : List ncclTopoLink),
      pre.countP (linkMatchB rem t) = 0 →
      rest.countP (linkMatchB rem t) = 0 →
      (connectGo rem t w pre rest).filter (linkMatchB rem t) =
        [{ type := t, width := w, remNode := rem }] := by
  intro rest
  induction rest with
  | nil =>
    intro pre hpre _
    simp only [connectGo]
    have hperm := (insertBack_perm { type := t, width := w, remNode := rem } pre).filter
      (linkMatchB rem t)
    have hme : linkMatchB rem t { type := t, width := w, remNode := rem } = true := by
      simp [linkMatchB, linkMatches]
    have hfpre : pre.filter (linkMatchB rem t) = [] :=
      List.countP_eq_zero.mp hpre |> fun h => List.filter_eq_nil.mpr h
    rw [List.filter_cons_of_pos hme, hfpre] at hperm
    exact List.perm_singleton.mp hperm
  | cons l ls ih =>
    intro pre hpre hrest
    have hml : linkMatchB rem t l = false := by
      by_contra hc
      simp only [Bool.not_eq_false] at hc
      simp [List.countP_cons, hc] at hrest
    simp only [connectGo]
    rw [if_neg (by simpa [linkMatchB] using hml)]
    rw [List.countP_cons, hml] at hrest
    apply ih
    · rw [List.countP_append]
      simp [hpre, List.countP_cons, hml]
    · simpa using hrest

theorem connectGo_filter_one (rem : ncclTopoNodeRef) (t : Nat) (w w0 : ℚ) :
    ∀ (rest pre : List ncclTopoLink),
      pre.countP (linkMatchB rem t) = 0 →
      rest.filter (linkMatchB rem t) = [{ type := t, width := w0, remNode := rem }] →
      (connectGo rem t w pre rest).filter (linkMatchB rem t) =
        [{ type := t, width := w0 + w, remNode := rem }] := by
  intro rest
  induction rest with
  | nil => intro pre _ hrest; simp at hrest
  | cons l ls ih =>
    intro pre hpre hrest
    simp only [connectGo]
    by_cases hml : linkMatches rem t l
    · rw [if_pos hml]
      have hmlb : linkMatchB rem t l = true := by simp [linkMatchB, hml]
      rw [List.filter_cons_of_pos hmlb] at hrest
      have hl : l = { type := t, width := w0, remNode := rem } := by
        injection hrest with h1 h2
      have hls : ls.filter (linkMatchB rem t) = [] := by
        injection hrest with h1 h2
      rw [List.filter_append, hls, List.append_nil]
      have hperm := (insertBack_perm
        { type := t, width := l.width + w, remNode := rem } pre).filter (linkMatchB rem t)
      have hme : linkMatchB rem t { type := t, width := l.width + w, remNode := rem } = true := by
        simp [linkMatchB, linkMatches]
      have hfpre : pre.filter (linkMatchB rem t) = [] :=
        List.filter_eq_nil.mpr (List.countP_eq_zero.mp hpre)
      rw [List.filter_cons_of_pos hme, hfpre] at hperm
      have := List.perm_singleton.mp hperm
      rw [this, hl]
    · rw [if_neg hml]
      have hmlb : linkMatchB rem t l = false := by simp [linkMatchB, hml]
      apply ih
      · rw [List.countP_append]
        simp [hpre, List.countP_cons, hmlb]
      · rwa [List.filter_cons_of_neg (by simp [hmlb])] at hrest

/-- Iterated connection of the same (remote, kind) pair with a list of
widths: k successive `ncclTopoConnectNodes` calls on one link list. -/
def connectIter (links : List ncclTopoLink) (rem : ncclTopoNodeRef) (t : Nat)
    (ws : List ℚ) : List ncclTopoLink :=
  ws.foldl (fun acc w => ncclTopoConnectLinks acc rem t w) links

theorem connectIter_filter_one (rem : ncclTopoNodeRef) (t : Nat) (w0 : ℚ)
    (ws : List ℚ) :
    ∀ links, links.filter (linkMatchB rem t) =
        [{ type := t, width := w0, remNode := rem }] →
      (connectIter links rem t ws).filter (linkMatchB rem t) =
        [{ type := t, width := w0 + ws.sum, remNode := rem }] := by
  induction ws generalizing w0 with
  | nil => intro links h; simpa using h
  | cons w ws ih =>
    intro links h
    have hstep := connectGo_filter_one rem t w w0 links [] (by simp) h
    have hiter := ih (w0 + w) (ncclTopoConnectLinks links rem t w) hstep
    simp only [connectIter, List.foldl_cons] at hiter ⊢
    rw [hiter]
    congr 1
    simp only [List.sum_cons]
    ring_nf

/-! ## Sortedness invariant of connectNodes (claim C3 machinery) -/

theorem connectGo_sorted (rem : ncclTopoNodeRef) (t : Nat) (w : ℚ) (hw : 0 ≤ w) :
    ∀ (rest pre : List ncclTopoLink), linksSorted (pre ++ rest) →
      linksSorted (connectGo rem t w pre rest) := by
  intro rest
  induction rest with
  | nil =>
    intro pre h
    rw [List.append_nil] at h
    exact insertBack_sorted _ pre h
  | cons l ls ih =>
    intro pre h
    have hparts := (List.pairwise_append).mp h
    obtain ⟨hpre, hcons, hcross⟩ := hparts
    have hls := (List.pairwise_cons.mp hcons).2
    have hlls := (List.pairwise_cons.mp hcons).1
    simp only [connectGo]
    split
    · refine (List.pairwise_append).mpr ⟨?_, hls, ?_⟩
      · exact insertBack_sorted _ pre hpre
      · intro x hx y hy
        rcases insertBack_mem_width _ pre x hx with hx | hx
        · subst hx
          simp only
          calc y.width ≤ l.width := hlls y hy
            _ ≤ l.width + w := by linarith
        · exact hcross x hx y (List.mem_cons_of_mem l hy)
    · apply ih (pre ++ [l])
      rw [List.append_assoc]
      simpa using h

theorem connectLinks_sorted (links : List ncclTopoLink) (rem : ncclTopoNodeRef)
    (t : Nat) (w : ℚ) (hw : 0 ≤ w) (h : linksSorted links) :
    linksSorted (ncclTopoConnectLinks links rem t w) :=
  connectGo_sorted rem t w hw links [] (by simpa using h)

/-- A sequence of `ncclTopoConnectNodes` calls on one node's link list:
each call gives the remote node, the link kind and the width. -/
def applyConnects (links : List ncclTopoLink)
    (calls : List (ncclTopoNodeRef × Nat × ℚ)) : List ncclTopoLink :=
  calls.foldl (fun acc c => ncclTopoConnectLinks acc c.1 c.2.1 c.2.2) links

theorem applyConnects_sorted (calls : List (ncclTopoNodeRef × Nat × ℚ)) :
    ∀ links, linksSorted links → (∀ c ∈ calls, 0 ≤ c.2.2) →
      linksSorted (applyConnects links calls) := by
  induction calls with
  | nil => intro links h _; exact h
  | cons c cs ih =>
    intro links h hw
    simp only [applyConnects, List.foldl_cons]
    exact ih _ (connectLinks_sorted links c.1 c.2.1 c.2.2
      (hw c (List.mem_cons_self c cs)) h)
      (fun c' hc' => hw c' (List.mem_cons_of_mem c hc'))

theorem initNode_links_sorted (t id slot : Nat) :
    linksSorted (initNode t id slot).links := by
  unfold initNode
  split
  · simp [linksSorted]
  · split
    · simp [linksSorted]
    · split <;> simp [linksSorted]

/-! ## Claim C2 -/

/-- Claim C2 (confirmed): for every link list holding no entry for the pair
(`b`, `kind`), performing k ≥ 1 `ncclTopoConnectNodes` calls for that pair
with widths w1..wk leaves — after every prefix of the sequence, so no
duplicate is ever created — exactly one matching entry, whose width is the
sum of the widths so far (topo.cc:149-170; spec P2). -/
theorem claimC2_connect_aggregates (links : List ncclTopoLink)
    (b : ncclTopoNodeRef) (t : Nat) (ws : List ℚ)
    (h : links.countP (linkMatchB b t) = 0) :
    ∀ j, 1 ≤ j → j ≤ ws.length →
      (connectIter links b t (ws.take j)).filter (linkMatchB b t) =
        [{ type := t, width := (ws.take j).sum, remNode := b }] := by
  intro j h1 h2
  cases ws with
  | nil => simp at h2; omega
  | cons w ws' =>
    cases j with
    | zero => omega
    | succ j' =>
      simp only [List.take_succ_cons]
      have hstep := connectGo_filter_zero b t w links [] (by simp) h
      have hiter := connectIter_filter_one b t w (ws'.take j')
        (ncclTopoConnectLinks links b t w) hstep
      simp only [connectIter, List.foldl_cons] at hiter ⊢
      rw [hiter]
      simp [List.sum_cons]

/-- Witness for C2: two aggregating calls of widths 3 and 4 on an empty
link list leave the single entry of width 7. -/
theorem claimC2_connect_aggregates_witness :
    (connectIter [] (⟨0, 1⟩ : ncclTopoNodeRef) 1 (([3, 4, 5] : List ℚ).take 2)).filter
        (linkMatchB ⟨0, 1⟩ 1) =
      [{ type := 1, width := (([3, 4, 5] : List ℚ).take 2).sum, remNode := ⟨0, 1⟩ }] :=
  claimC2_connect_aggregates [] ⟨0, 1⟩ 1 [3, 4, 5] (by decide) 2 (by decide) (by decide)

/-! ## Claim C3 -/

/-- Claim C3 (corrected): the original claim — descending-width order after
ANY sequence of `ncclTopoConnectNodes` calls on a fresh node — fails when a
call carries a negative width (the backward insertion step only moves the
updated entry towards the front, so an entry whose aggregated width shrank
below a later entry stays in place).  Amended with the hypothesis that
every width in the sequence is nonnegative (every call site in topo.cc
passes a positive width), the invariant holds: starting from a freshly
created node's link list, every intermediate list is non-increasing by
width, the order being re-established by the single backward insertion step
of each call (topo.cc:160-168; spec P3). -/
theorem claimC3_sorted_invariant (t id slot : Nat)
    (calls : List (ncclTopoNodeRef × Nat × ℚ))
    (hw : ∀ c ∈ calls, 0 ≤ c.2.2) :
    linksSorted (applyConnects (initNode t id slot).links calls) :=
  applyConnects_sorted calls (initNode t id slot).links
    (initNode_links_sorted t id slot) hw

/-- Counterexample to C3 as stated: on a fresh GPU node (self-loop width
5000), connect (b, NVL, 3), then (c, NVL, 2), then (b, NVL, -2): the b
entry aggregates to width 1 but stays before the width-2 entry, so the
list [5000, 1, 2] is not sorted. -/
theorem claimC3_counterexample :
    ¬ linksSorted (applyConnects (initNode GPU 0 0).links
      [(⟨0, 1⟩, LINK_NVL, 3), (⟨0, 2⟩, LINK_NVL, 2), (⟨0, 1⟩, LINK_NVL, -2)]) := by
  rw [← linksSortedB_iff]
  norm_num [applyConnects, ncclTopoConnectLinks, connectGo, insertBack, insBackAux,
    initNode, linkMatches, linksSortedB, GPU, CPU, NET, LINK_NVL, LINK_LOC, LOC_WIDTH,
    NCCL_TOPO_UNDEF]

/-- Witness for C3: a nonnegative sequence on a fresh GPU node. -/
theorem claimC3_sorted_invariant_witness :
    linksSorted (applyConnects (initNode GPU 0 0).links
      [(⟨0, 1⟩, LINK_NVL, 3), (⟨0, 2⟩, LINK_NVL, 2), (⟨0, 1⟩, LINK_NVL, 4)]) :=
  claimC3_sorted_invariant GPU 0 0
    [(⟨0, 1⟩, LINK_NVL, 3), (⟨0, 2⟩, LINK_NVL, 2), (⟨0, 1⟩, LINK_NVL, 4)]
    (by decide)

/-! ## Claim C1: removeNode machinery -/

/-- How removal of the node at (`t`, `index`) renumbers a node reference:
references to the removed node disappear, references to a same-typed node
at a higher slot drop by one, all others are untouched.  This is the
functional content of the loop at topo.cc:133-141. -/
def refAdjust (t index : Nat) (r : ncclTopoNodeRef) : Option ncclTopoNodeRef :=
  if r = ⟨t, index⟩ then none
  else if r.ty = t ∧ index ≤ r.ix then some ⟨t, r.ix - 1⟩
  else some r

theorem removeNodeFixLinks_eq (t index : Nat) (links : List ncclTopoLink) :
    removeNodeFixLinks t index links =
      links.filterMap (fun l =>
        (refAdjust t index l.remNode).map fun r => { l with remNode := r }) := by
  induction links with
  | nil => rfl
  | cons l ls ih =>
    simp only [removeNodeFixLinks, List.filterMap_cons]
    by_cases h1 : l.remNode = ⟨t, index⟩
    · simp [refAdjust, h1, ih]
    · by_cases h2 : l.remNode.ty = t ∧ index ≤ l.remNode.ix
      · simp [refAdjust, h1, h2, ih]
      · simp [refAdjust, h1, h2, ih]

/-- The link fixup applied to a whole node (the removed node itself is
skipped by the loop, but it is dropped from the array anyway). -/
def fixNode (t index : Nat) (n : ncclTopoNode) : ncclTopoNode :=
  { n with links := removeNodeFixLinks t index n.links }

/-- The pre-removal slot that ends up at a given post-removal slot: slots of
the removed node's type at or above the removed index shift down by one
(the final memmove at topo.cc:144). -/
def removeShift (t index : Nat) (r : ncclTopoNodeRef) : ncclTopoNodeRef :=
  if r.ty = t ∧ index ≤ r.ix then ⟨r.ty, r.ix + 1⟩ else r

/-- Positional characterisation of `ncclTopoRemoveNode`: the node a
reference denotes afterwards is the link-fixed version of the node that sat
at the shifted pre-removal slot. -/
theorem removeNode_getAt (s : ncclTopoSystem) (t index : Nat)
    (r : ncclTopoNodeRef) :
    getAt (ncclTopoRemoveNode s t index) r =
      (getAt s (removeShift t index r)).map (fixNode t index) := by
  obtain ⟨ti, ni⟩ := r
  simp only [getAt, ncclTopoRemoveNode, removeShift, List.get?_eq_getElem?,
    listMapIdx_get?]
  by_cases hti : ti = t
  · subst hti
    cases hl : s.nodes[ti]? with
    | none => by_cases hix : index ≤ ni <;> simp [hix, hl]
    | some l =>
      simp only [Option.map_some', Option.some_bind, eq_self_iff_true, if_true,
        true_and]
      rw [eraseIdx_get?]
      by_cases hni : ni < index
      · have hle : ¬ index ≤ ni := by omega
        rw [if_pos hni, if_neg hle, listMapIdx_get?]
        simp only [hl, Option.map_some', Option.some_bind]
        cases l[ni]? with
        | none => simp
        | some n =>
          have hcc : ¬ ni = index := by omega
          simp [hcc, fixNode]
      · have hle : index ≤ ni := by omega
        rw [if_neg hni, if_pos hle, listMapIdx_get?]
        simp only [hl, Option.map_some', Option.some_bind]
        cases l[ni + 1]? with
        | none => simp
        | some n =>
          have hcc : ¬ ni + 1 = index := by omega
          simp [hcc, fixNode]
  · have hcond : ¬ (ti = t ∧ index ≤ ni) := by simp [hti]
    cases hl : s.nodes[ti]? with
    | none => simp [hl, hcond, hti]
    | some l =>
      simp only [if_neg hcond, hl, Option.map_some', Option.some_bind, if_neg hti]
      rw [listMapIdx_get?]
      cases l[ni]? with
      | none => simp
      | some n =>
        have : ¬ (ti = t ∧ ni = index) := by simp [hti]
        simp [this, fixNode]

theorem removeNode_count (s : ncclTopoSystem) (t index : Nat)
    (h : index < (typeNodes s t).length) :
    (typeNodes (ncclTopoRemoveNode s t index) t).length =
      (typeNodes s t).length - 1 := by
  have hl : ∃ l, s.nodes[t]? = some l ∧ index < l.length := by
    cases hg : s.nodes[t]? with
    | none => simp [typeNodes, hg] at h
    | some l =>
      refine ⟨l, rfl, ?_⟩
      simpa [typeNodes, hg] using h
  obtain ⟨l, hg, hlen⟩ := hl
  simp only [typeNodes, ncclTopoRemoveNode, List.get?_eq_getElem?, listMapIdx_get?,
    hg, Option.map_some', Option.getD_some, eq_self_iff_true, if_true, true_and]
  rw [List.length_eraseIdx]
  rw [listMapIdx_length]
  rw [if_pos hlen]


theorem ref_eq_iff (r : ncclTopoNodeRef) (a b : Nat) :
    r = ⟨a, b⟩ ↔ r.ty = a ∧ r.ix = b := by
  cases r
  simp

theorem fixLinks_countP_shift (t index : Nat) (j : Nat) (hj : index < j)
    (links : List ncclTopoLink) :
    (removeNodeFixLinks t index links).countP
        (fun l => decide (l.remNode = ⟨t, j - 1⟩)) =
      links.countP (fun l => decide (l.remNode = ⟨t, j⟩)) := by
  induction links with
  | nil => rfl
  | cons l ls ih =>
    simp only [removeNodeFixLinks]
    by_cases h1 : l.remNode = ⟨t, index⟩
    · rw [if_pos h1, ih, List.countP_cons]
      have hne : ¬ (l.remNode = ⟨t, j⟩) := by
        rw [h1]
        intro hc
        injection hc with hc1 hc2
        omega
      simp [hne]
    · rw [if_neg h1]
      by_cases h2 : l.remNode.ty = t ∧ index ≤ l.remNode.ix
      · rw [if_pos h2, List.countP_cons, List.countP_cons, ih]
        obtain ⟨hty2, hge2⟩ := h2
        have hixne : l.remNode.ix ≠ index := fun hx =>
          h1 ((ref_eq_iff l.remNode t index).mpr ⟨hty2, hx⟩)
        have hiff : ((⟨t, l.remNode.ix - 1⟩ : ncclTopoNodeRef) = ⟨t, j - 1⟩) ↔
            (l.remNode = ⟨t, j⟩) := by
          rw [ref_eq_iff l.remNode t j]
          simp only [ncclTopoNodeRef.mk.injEq, true_and]
          constructor
          · intro hb
            exact ⟨hty2, by omega⟩
          · rintro ⟨-, hb⟩
            omega
        simp only [hiff]
      · rw [if_neg h2, List.countP_cons, List.countP_cons, ih]
        have hne1 : ¬ (l.remNode = (⟨t, j - 1⟩ : ncclTopoNodeRef)) := by
          intro hc
          apply h2
          rw [hc]
          refine ⟨rfl, ?_⟩
          show index ≤ j - 1
          omega
        have hne2 : ¬ (l.remNode = (⟨t, j⟩ : ncclTopoNodeRef)) := by
          intro hc
          apply h2
          rw [hc]
          refine ⟨rfl, ?_⟩
          show index ≤ j
          omega
        simp [hne1, hne2]

theorem fixLinks_mem (t index : Nat) (links : List ncclTopoLink)
    (l' : ncclTopoLink) (h : l' ∈ removeNodeFixLinks t index links) :
    ∃ l ∈ links, refAdjust t index l.remNode = some l'.remNode := by
  rw [removeNodeFixLinks_eq] at h
  obtain ⟨l, hl, hmap⟩ := List.mem_filterMap.mp h
  refine ⟨l, hl, ?_⟩
  cases hadj : refAdjust t index l.remNode with
  | none => rw [hadj] at hmap; simp at hmap
  | some r =>
    rw [hadj] at hmap
    simp only [Option.map_some'] at hmap
    have hr : r = l'.remNode := by
      have := congrArg ncclTopoLink.remNode (Option.some.inj hmap)
      simpa using this
    rw [hr]

theorem removeShift_refAdjust (t index : Nat) (a b : Nat)
    (r' : ncclTopoNodeRef) (h : refAdjust t index ⟨a, b⟩ = some r') :
    removeShift t index r' = ⟨a, b⟩ := by
  unfold refAdjust at h
  split at h
  · exact absurd h (by simp)
  · rename_i hne
    split at h
    · rename_i hcond
      have hty : a = t := hcond.1
      have hge : index ≤ b := hcond.2
      have h' : r' = ⟨t, b - 1⟩ := (Option.some.inj h).symm
      subst h'
      have hbne : b ≠ index := by
        intro hx
        exact hne (by rw [hty, hx])
      unfold removeShift
      have hcond2 : (⟨t, b - 1⟩ : ncclTopoNodeRef).ty = t ∧
          index ≤ (⟨t, b - 1⟩ : ncclTopoNodeRef).ix :=
        ⟨rfl, by show index ≤ b - 1; omega⟩
      rw [if_pos hcond2]
      have hb : b - 1 + 1 = b := by omega
      subst hty
      simp [hb]
    · rename_i hcond
      have h' : r' = ⟨a, b⟩ := (Option.some.inj h).symm
      subst h'
      unfold removeShift
      rw [if_neg hcond]

/-- Well-formed cross-references: every link of every node points at an
existing slot.  Systems built by ingestion satisfy this (C pointers into
live array slots). -/
def wellFormedRefs (s : ncclTopoSystem) : Prop :=
  ∀ r node, getAt s r = some node →
    ∀ l ∈ node.links, (getAt s l.remNode).isSome

theorem removeNode_wf (s : ncclTopoSystem) (t index : Nat)
    (hwf : wellFormedRefs s) :
    wellFormedRefs (ncclTopoRemoveNode s t index) := by
  intro r node hget l' hl'
  rw [removeNode_getAt] at hget
  cases hget0 : getAt s (removeShift t index r) with
  | none => rw [hget0] at hget; simp at hget
  | some node0 =>
    rw [hget0] at hget
    simp only [Option.map_some'] at hget
    have hnode : node = fixNode t index node0 := (Option.some.inj hget).symm
    subst hnode
    have hl'' : l' ∈ removeNodeFixLinks t index node0.links := by
      simpa [fixNode] using hl'
    obtain ⟨l0, hl0, hadj⟩ := fixLinks_mem t index node0.links l' hl''
    have hsome := hwf (removeShift t index r) node0 hget0 l0 hl0
    rw [removeNode_getAt]
    have hshift : removeShift t index l'.remNode = l0.remNode := by
      have := removeShift_refAdjust t index l0.remNode.ty l0.remNode.ix l'.remNode
      apply this
      convert hadj
    rw [hshift]
    simpa using hsome

/-! ## Claim C1 -/

/-- Claim C1 (confirmed): `ncclTopoRemoveNode(type, index)` (topo.cc:126-147)
with `index` a live slot: (1) the type's node array is compacted, its count
dropping by exactly one; (2) every surviving node is the link-fixed version
of the node at the shifted pre-removal slot, its link list being the old
list with entries referencing the removed node dropped (compacted, in
order) and same-typed references above the removed slot decremented — the
`refAdjust` renumbering; (3) hence a node previously referenced at a slot
j > index is afterwards referenced, by exactly the same number of link
entries, at slot j - 1; and (4) no dangling references: if every link of
every node pointed at a live slot before, the same holds after removal, so
no surviving link entry references the removed node (spec P4). -/
theorem claimC1_removeNode_spec (s : ncclTopoSystem) (t index : Nat)
    (h : index < (typeNodes s t).length) :
    ((typeNodes (ncclTopoRemoveNode s t index) t).length =
        (typeNodes s t).length - 1)
    ∧ (∀ r : ncclTopoNodeRef,
        getAt (ncclTopoRemoveNode s t index) r =
          (getAt s (removeShift t index r)).map (fixNode t index))
    ∧ (∀ (links : List ncclTopoLink) (j : Nat), index < j →
        (removeNodeFixLinks t index links).countP
            (fun l => decide (l.remNode = ⟨t, j - 1⟩)) =
          links.countP (fun l => decide (l.remNode = ⟨t, j⟩)))
    ∧ (wellFormedRefs s → wellFormedRefs (ncclTopoRemoveNode s t index)) :=
  ⟨removeNode_count s t index h,
   fun r => removeNode_getAt s t index r,
   fun links j hj => fixLinks_countP_shift t index j hj links,
   fun hwf => removeNode_wf s t index hwf⟩

/-- Concrete three-CPU system for the C1 witness: CPU 0 links to CPUs 1 and
2 (SYS links); CPU 2 links back to CPU 0. -/
def sC1 : ncclTopoSystem :=
  ⟨[[], [], [],
    [{ type := CPU, id := 10, links := [
        { type := LINK_SYS, width := 8, remNode := ⟨3, 1⟩ },
        { type := LINK_SYS, width := 8, remNode := ⟨3, 2⟩ }] },
      { type := CPU, id := 11, links := [
        { type := LINK_SYS, width := 8, remNode := ⟨3, 0⟩ }] },
      { type := CPU, id := 12, links := [
        { type := LINK_SYS, width := 8, remNode := ⟨3, 0⟩ }] }],
    [], []]⟩

/-- Witness for C1: removing the middle CPU of `sC1`. -/
theorem claimC1_removeNode_spec_witness :
    ((typeNodes (ncclTopoRemoveNode sC1 3 1) 3).length =
        (typeNodes sC1 3).length - 1)
    ∧ (∀ r : ncclTopoNodeRef,
        getAt (ncclTopoRemoveNode sC1 3 1) r =
          (getAt sC1 (removeShift 3 1 r)).map (fixNode 3 1))
    ∧ (∀ (links : List ncclTopoLink) (j : Nat), 1 < j →
        (removeNodeFixLinks 3 1 links).countP
            (fun l => decide (l.remNode = ⟨3, j - 1⟩)) =
          links.countP (fun l => decide (l.remNode = ⟨3, j⟩)))
    ∧ (wellFormedRefs sC1 → wellFormedRefs (ncclTopoRemoveNode sC1 3 1)) :=
  claimC1_removeNode_spec sC1 3 1 (by decide)

/-! ## Claim C9: the raw sentinel-terminated link array

The list model above keeps only the live entries of `node->links`; the C
code really scans a fixed array whose first NULL `remNode` acts as the
sentinel (`for (link = node->links; link->remNode; link++)`).  This raw
view embeds the array itself: a `rawLink` with `remNode = none` is a
NULL-sentinel slot. -/

structure rawLink where
  type : Nat := 0
  width : ℚ := 0
  remNode : Option ncclTopoNodeRef := none
deriving DecidableEq, Repr

instance : Inhabited rawLink := ⟨{}⟩

/-- Index at which the scan of topo.cc:152-154 stops: the first slot that
is the NULL sentinel or matches (remote, kind).  If no slot stops the scan
the C loop runs off the array; the model then returns the array length. -/
def rawScanIdx (rem : ncclTopoNodeRef) (t : Nat) : List rawLink → Nat
  | [] => 0
  | e :: es =>
    if e.remNode = none ∨ (e.remNode = some rem ∧ e.type = t) then 0
    else rawScanIdx rem t es + 1

/-- Backward insertion of topo.cc:160-168 on the raw array, walking down
from slot `i`. -/
def rawBubble (save : rawLink) : List rawLink → Nat → List rawLink
  | arr, 0 => arr.set 0 save
  | arr, i + 1 =>
    if (arr.getD i default).width < save.width then
      rawBubble save (arr.set (i + 1) (arr.getD i default)) i
    else arr.set (i + 1) save

/-- Raw-array `ncclTopoConnectNodes` (topo.cc:149-170): scan, write the
(possibly fresh) entry in place — `width +=` reads whatever width the slot
held — bump `nlinks` only when the slot was the sentinel, and re-position
by the backward pass. -/
def rawConnect (arr : List rawLink) (nlinks : Nat) (rem : ncclTopoNodeRef)
    (t : Nat) (w : ℚ) : List rawLink × Nat :=
  let i := rawScanIdx rem t arr
  let old := arr.getD i default
  let nlinks' := if old.remNode = none then nlinks + 1 else nlinks
  let entry : rawLink := { type := t, width := old.width + w, remNode := some rem }
  (rawBubble entry (arr.set i entry) i, nlinks')

/-- The memmove of topo.cc:135 on the raw array, dropping the entry at
slot `l` of a list of `nlinks` live entries: slots l..nlinks-2 take the
following slot's value; every other slot — including slot nlinks-1, which
keeps the old last entry — is untouched. -/
def rawRemoveLinkAt (arr : List rawLink) (l nlinks : Nat) : List rawLink :=
  listMapIdx (fun i e =>
    if l ≤ i ∧ i + 1 < nlinks then arr.getD (i + 1) default else e) arr

/-- The sentinel precondition: every slot at or beyond `nlinks` is NULL. -/
def rawTailNull (arr : List rawLink) (nlinks : Nat) : Prop :=
  ∀ e ∈ arr.drop nlinks, e.remNode = none

instance (arr : List rawLink) (nlinks : Nat) : Decidable (rawTailNull arr nlinks) := by
  unfold rawTailNull; infer_instance

theorem rawTailNull_getD (arr : List rawLink) (n : Nat) (h : rawTailNull arr n)
    (i : Nat) (hn : n ≤ i) (hl : i < arr.length) :
    (arr.getD i default).remNode = none := by
  have hsome : arr[i]? = some (arr.getD i default) := by
    simp [List.getD_eq_getElem?_getD, List.getElem?_eq_getElem hl]
  have hmem : arr.getD i default ∈ arr.drop n := by
    rw [List.mem_iff_getElem?]
    refine ⟨i - n, ?_⟩
    rw [List.getElem?_drop]
    have hi : n + (i - n) = i := by omega
    rw [hi, hsome]
  exact h _ hmem

theorem rawScanIdx_le (rem : ncclTopoNodeRef) (t : Nat) :
    ∀ (arr : List rawLink) (nlinks : Nat), nlinks < arr.length →
      rawTailNull arr nlinks → rawScanIdx rem t arr ≤ nlinks := by
  intro arr
  induction arr with
  | nil => intro n h _; simp at h
  | cons e es ih =>
    intro n hlen htail
    simp only [rawScanIdx]
    split
    · omega
    · rename_i hcond
      cases n with
      | zero =>
        exfalso
        exact hcond (Or.inl (htail e (by simp)))
      | succ m =>
        have hm : rawScanIdx rem t es ≤ m := by
          apply ih m
          · simpa using hlen
          · intro x hx
            exact htail x (by simpa using hx)
        omega

theorem rawBubble_length (save : rawLink) :
    ∀ (i : Nat) (arr : List rawLink), (rawBubble save arr i).length = arr.length := by
  intro i
  induction i with
  | zero => intro arr; simp [rawBubble]
  | succ i ih =>
    intro arr
    simp only [rawBubble]
    split
    · rw [ih]; simp
    · simp

theorem rawBubble_getD_gt (save : rawLink) :
    ∀ (i : Nat) (arr : List rawLink) (j : Nat), i < j →
      (rawBubble save arr i).getD j default = arr.getD j default := by
  intro i
  induction i with
  | zero =>
    intro arr j hj
    simp only [rawBubble]
    rw [List.getD_eq_getElem?_getD, List.getElem?_set_ne (by omega),
      ← List.getD_eq_getElem?_getD]
  | succ i ih =>
    intro arr j hj
    simp only [rawBubble]
    split
    · rw [ih _ j (by omega)]
      rw [List.getD_eq_getElem?_getD, List.getElem?_set_ne (by omega),
        ← List.getD_eq_getElem?_getD]
    · rw [List.getD_eq_getElem?_getD, List.getElem?_set_ne (by omega),
        ← List.getD_eq_getElem?_getD]

theorem raw_tail_aux (arr : List rawLink) (nlinks i : Nat) (entry : rawLink)
    (htail : rawTailNull arr nlinks)
    (n' : Nat) (hn1 : nlinks ≤ n') (hi : i < n') :
    rawTailNull (rawBubble entry (arr.set i entry) i) n' := by
  intro e he
  rw [List.mem_iff_getElem?] at he
  obtain ⟨k, hk⟩ := he
  rw [List.getElem?_drop] at hk
  have hklen : n' + k < (rawBubble entry (arr.set i entry) i).length :=
    (List.getElem?_eq_some.mp hk).1
  rw [rawBubble_length, List.length_set] at hklen
  have hframe := rawBubble_getD_gt entry i (arr.set i entry) (n' + k) (by omega)
  have hset : (arr.set i entry).getD (n' + k) default =
      arr.getD (n' + k) default := by
    rw [List.getD_eq_getElem?_getD, List.getElem?_set_ne (by omega),
      ← List.getD_eq_getElem?_getD]
  have he' : e = arr.getD (n' + k) default := by
    have h1 : (rawBubble entry (arr.set i entry) i).getD (n' + k) default = e := by
      rw [List.getD_eq_getElem?_getD, hk]
      rfl
    rw [hframe, hset] at h1
    exact h1.symm
  rw [he']
  exact rawTailNull_getD arr nlinks htail (n' + k) (by omega) hklen

/-- Claim C9 (confirmed): under the sentinel precondition — fewer live
entries than the array's capacity and NULL slots from `nlinks` on — the
scan of `ncclTopoConnectNodes` stops at a slot no later than `nlinks`, so
every slot it reads or writes (scan, in-place update, backward pass) is
within the array even though the function performs no capacity check; the
entry count grows by at most one and stays within capacity, and the
sentinel precondition is re-established afterwards.  The final conjunct is
the flip side the claim points at: `ncclTopoRemoveNode`'s memmove
compaction (topo.cc:135) does NOT re-establish the precondition — dropping
the first of two live entries leaves the old last entry duplicated in the
slot at the new `nlinks`, a stale non-NULL entry. -/
theorem claimC9_connect_scan_bounds (arr : List rawLink) (nlinks : Nat)
    (rem : ncclTopoNodeRef) (t : Nat) (w : ℚ)
    (hcap : nlinks < arr.length) (htail : rawTailNull arr nlinks) :
    (rawScanIdx rem t arr ≤ nlinks)
    ∧ ((rawConnect arr nlinks rem t w).1.length = arr.length)
    ∧ ((rawConnect arr nlinks rem t w).2 ≤ arr.length)
    ∧ rawTailNull (rawConnect arr nlinks rem t w).1 (rawConnect arr nlinks rem t w).2
    ∧ ¬ rawTailNull
        (rawRemoveLinkAt
          [{ type := 5, width := 8, remNode := some ⟨3, 1⟩ },
           { type := 5, width := 8, remNode := some ⟨3, 2⟩ },
           default, default] 0 2) (2 - 1) := by
  have hscan := rawScanIdx_le rem t arr nlinks hcap htail
  refine ⟨hscan, ?_, ?_, ?_, ?_⟩
  · simp only [rawConnect]
    rw [rawBubble_length]
    simp
  · simp only [rawConnect]
    split <;> omega
  · simp only [rawConnect]
    split
    · exact raw_tail_aux arr nlinks _ _ htail (nlinks + 1) (by omega) (by omega)
    · rename_i hnull
      have hlt : rawScanIdx rem t arr < nlinks := by
        rcases Nat.lt_or_ge (rawScanIdx rem t arr) nlinks with h | h
        · exact h
        · exact absurd (rawTailNull_getD arr nlinks htail _ h (by omega)) hnull
      exact raw_tail_aux arr nlinks _ _ htail nlinks (le_refl _) hlt
  · decide

/-- Witness for C9: a two-entry array of capacity four. -/
theorem claimC9_connect_scan_bounds_witness :
    ((rawScanIdx ⟨3, 2⟩ 5
        [{ type := 5, width := 8, remNode := some ⟨3, 1⟩ },
         default, default, default]) ≤ 1)
    ∧ ((rawConnect
        [{ type := 5, width := 8, remNode := some ⟨3, 1⟩ },
         default, default, default] 1 ⟨3, 2⟩ 5 8).1.length = 4)
    ∧ ((rawConnect
        [{ type := 5, width := 8, remNode := some ⟨3, 1⟩ },
         default, default, default] 1 ⟨3, 2⟩ 5 8).2 ≤ 4)
    ∧ rawTailNull
        (rawConnect
          [{ type := 5, width := 8, remNode := some ⟨3, 1⟩ },
           default, default, default] 1 ⟨3, 2⟩ 5 8).1
        (rawConnect
          [{ type := 5, width := 8, remNode := some ⟨3, 1⟩ },
           default, default, default] 1 ⟨3, 2⟩ 5 8).2
    ∧ ¬ rawTailNull
        (rawRemoveLinkAt
          [{ type := 5, width := 8, remNode := some ⟨3, 1⟩ },
           { type := 5, width := 8, remNode := some ⟨3, 2⟩ },
           default, default] 0 2) (2 - 1) := by
  have h := claimC9_connect_scan_bounds
    [{ type := 5, width := 8, remNode := some ⟨3, 1⟩ },
     default, default, default] 1 ⟨3, 2⟩ 5 8 (by decide) (by decide)
  simpa using h

/-! ## Claim C5: the canonical sort (topo.cc:226-256)

`ncclTopoSort` recurses over PCI edges with no termination guarantee in
the C code (it relies on the PCI subgraph being a tree); the embedding
makes the recursion fuel-indexed, `none` meaning the fuel ran out.  Each
call also returns the visit log — the (node, traversal parent) pairs in
visit order — which is the "CPU-rooted PCI spanning tree" the claim talks
about: a node appears with parent `some p` exactly when the pass reached
it from `p` across a PCI edge. -/

/-- The shift loop at topo.cc:229-237: move the first link whose remote is
the up-node to the end of the list.  `none` when no such link exists (the
C loop would run past the array; on real inputs the parent link is always
present). -/
def moveUpLast (u : ncclTopoNodeRef) : List ncclTopoLink → Option (List ncclTopoLink)
  | [] => none
  | l :: ls =>
    if l.remNode = u then some (ls ++ [l])
    else (moveUpLast u ls).map (l :: ·)

mutual

/-- One `ncclTopoSort(node, upNode)` call (topo.cc:226-246): shift the
up-link last, then walk the link list recursing into PCI links that do not
lead back to the parent. -/
def ncclTopoSortGo : Nat → ncclTopoSystem → ncclTopoNodeRef →
    Option ncclTopoNodeRef →
    Option (ncclTopoSystem × List (ncclTopoNodeRef × Option ncclTopoNodeRef))
  | 0, _, _, _ => none
  | fuel + 1, s, ref, up =>
    match up with
    | none =>
      match ncclTopoSortLinks fuel s ref none 0 with
      | none => none
      | some (s', log) => some (s', (ref, none) :: log)
    | some u =>
      match getAt s ref with
      | none => none
      | some node =>
        match moveUpLast u node.links with
        | none => none
        | some links' =>
          match ncclTopoSortLinks fuel
              (updateAt s ref fun n => { n with links := links' }) ref (some u) 0 with
          | none => none
          | some (s', log) => some (s', (ref, some u) :: log)

/-- The recursion loop at topo.cc:241-244, from link index `l` on; the
node is re-read from the state on every iteration, as the C code re-reads
`node->links[l]` and `node->nlinks` from memory. -/
def ncclTopoSortLinks : Nat → ncclTopoSystem → ncclTopoNodeRef →
    Option ncclTopoNodeRef → Nat →
    Option (ncclTopoSystem × List (ncclTopoNodeRef × Option ncclTopoNodeRef))
  | 0, _, _, _, _ => none
  | fuel + 1, s, ref, up, l =>
    match getAt s ref with
    | none => none
    | some node =>
      if h : l < node.links.length then
        let link := node.links.get ⟨l, h⟩
        if link.type = LINK_PCI ∧ some link.remNode ≠ up then
          match ncclTopoSortGo fuel s link.remNode (some ref) with
          | none => none
          | some (s1, log1) =>
            match ncclTopoSortLinks fuel s1 ref up (l + 1) with
            | none => none
            | some (s2, log2) => some (s2, log1 ++ log2)
        else ncclTopoSortLinks fuel s ref up (l + 1)
      else some (s, [])

end

/-- The loop of `ncclTopoSortSystem` (topo.cc:253-256) from CPU index `n`. -/
def ncclTopoSortSystemLoop : Nat → ncclTopoSystem → Nat →
    Option (ncclTopoSystem × List (ncclTopoNodeRef × Option ncclTopoNodeRef))
  | 0, _, _ => none
  | fuel + 1, s, n =>
    if n < (typeNodes s CPU).length then
      match ncclTopoSortGo fuel s ⟨CPU, n⟩ none with
      | none => none
      | some (s', log) =>
        match ncclTopoSortSystemLoop fuel s' (n + 1) with
        | none => none
        | some (s'', log') => some (s'', log ++ log')
    else some (s, [])

/-- `ncclTopoSortSystem` (topo.cc:253-256): sort every CPU-rooted tree. -/
def ncclTopoSortSystem (fuel : Nat) (s : ncclTopoSystem) :
    Option (ncclTopoSystem × List (ncclTopoNodeRef × Option ncclTopoNodeRef)) :=
  ncclTopoSortSystemLoop fuel s 0

/-- The property the canonicalizer establishes at a visited node: the link
back to the traversal parent is the last entry of the link list. -/
def parentLinkLast (s : ncclTopoSystem) (r p : ncclTopoNodeRef) : Prop :=
  ∃ node, getAt s r = some node ∧
    ∃ l, node.links.getLast? = some l ∧ l.remNode = p

theorem moveUpLast_getLast (u : ncclTopoNodeRef) :
    ∀ (links links' : List ncclTopoLink), moveUpLast u links = some links' →
      ∃ l, links'.getLast? = some l ∧ l.remNode = u := by
  intro links
  induction links with
  | nil => intro links' h; exact absurd h (by simp [moveUpLast])
  | cons l ls ih =>
    intro links' h
    simp only [moveUpLast] at h
    split at h
    · rename_i heq
      have h' : links' = ls ++ [l] := (Option.some.inj h).symm
      subst h'
      exact ⟨l, by simp [List.getLast?_concat], heq⟩
    · cases hmv : moveUpLast u ls with
      | none => rw [hmv] at h; simp at h
      | some ls2 =>
        rw [hmv] at h
        simp only [Option.map_some'] at h
        have h' : links' = l :: ls2 := (Option.some.inj h).symm
        subst h'
        obtain ⟨x, hx, hxu⟩ := ih ls2 hmv
        refine ⟨x, ?_, hxu⟩
        cases ls2 with
        | nil => simp at hx
        | cons y ys => rw [List.getLast?_cons_cons, hx]
theorem sort_frame : ∀ fuel : Nat,
    (∀ s ref up s' log, ncclTopoSortGo fuel s ref up = some (s', log) →
      ∀ r, r ∉ log.map Prod.fst → getAt s' r = getAt s r)
    ∧ (∀ s ref up l s' log, ncclTopoSortLinks fuel s ref up l = some (s', log) →
      ∀ r, r ∉ log.map Prod.fst → getAt s' r = getAt s r) := by
  intro fuel
  induction fuel with
  | zero =>
    constructor
    · intro s ref up s' log h
      exact absurd h (by simp [ncclTopoSortGo])
    · intro s ref up l s' log h
      exact absurd h (by simp [ncclTopoSortLinks])
  | succ fuel ih =>
    obtain ⟨ihGo, ihLinks⟩ := ih
    constructor
    · intro s ref up s' log h r hr
      simp only [ncclTopoSortGo] at h
      split at h
      · -- up = none
        split at h
        · exact absurd h (by simp)
        · rename_i s1 log1 hL
          rw [Option.some_inj, Prod.mk.injEq] at h
          obtain ⟨rfl, rfl⟩ := h
          simp only [List.map_cons, List.mem_cons, not_or] at hr
          exact ihLinks s ref none 0 s1 log1 hL r hr.2
      · -- up = some u
        rename_i u
        split at h
        · exact absurd h (by simp)
        · rename_i node hget
          split at h
          · exact absurd h (by simp)
          · rename_i links' hmv
            split at h
            · exact absurd h (by simp)
            · rename_i s1 log1 hL
              rw [Option.some_inj, Prod.mk.injEq] at h
              obtain ⟨rfl, rfl⟩ := h
              simp only [List.map_cons, List.mem_cons, not_or] at hr
              rw [ihLinks _ ref (some u) 0 s1 log1 hL r hr.2]
              rw [getAt_updateAt]
              rw [if_neg hr.1]
    · intro s ref up l s' log h r hr
      simp only [ncclTopoSortLinks] at h
      split at h
      · exact absurd h (by simp)
      · rename_i node hget
        by_cases hlen : l < node.links.length
        · rw [dif_pos hlen] at h
          by_cases hcond : (node.links.get ⟨l, hlen⟩).type = LINK_PCI ∧
              some (node.links.get ⟨l, hlen⟩).remNode ≠ up
          · rw [if_pos hcond] at h
            split at h
            · exact absurd h (by simp)
            · rename_i s1 log1 hG
              split at h
              · exact absurd h (by simp)
              · rename_i s2 log2 hL
                rw [Option.some_inj, Prod.mk.injEq] at h
                obtain ⟨rfl, rfl⟩ := h
                simp only [List.map_append, List.mem_append, not_or] at hr
                rw [ihLinks s1 ref up (l + 1) s2 log2 hL r hr.2]
                exact ihGo s _ (some ref) s1 log1 hG r hr.1
          · rw [if_neg hcond] at h
            exact ihLinks s ref up (l + 1) s' log h r hr
        · rw [dif_neg hlen] at h
          rw [Option.some_inj, Prod.mk.injEq] at h
          obtain ⟨rfl, rfl⟩ := h
          rfl

theorem sort_main : ∀ fuel : Nat,
    (∀ s ref up s' log, ncclTopoSortGo fuel s ref up = some (s', log) →
      (log.map Prod.fst).Nodup →
      ∀ r p, (r, some p) ∈ log → parentLinkLast s' r p)
    ∧ (∀ s ref up l s' log, ncclTopoSortLinks fuel s ref up l = some (s', log) →
      (log.map Prod.fst).Nodup →
      ∀ r p, (r, some p) ∈ log → parentLinkLast s' r p) := by
  intro fuel
  induction fuel with
  | zero =>
    constructor
    · intro s ref up s' log h
      exact absurd h (by simp [ncclTopoSortGo])
    · intro s ref up l s' log h
      exact absurd h (by simp [ncclTopoSortLinks])
  | succ fuel ih =>
    obtain ⟨ihGo, ihLinks⟩ := ih
    constructor
    · intro s ref up s' log h hnd r p hmem
      simp only [ncclTopoSortGo] at h
      split at h
      · -- up = none: the root carries no parent, the rest is the loop's log
        split at h
        · exact absurd h (by simp)
        · rename_i s1 log1 hL
          rw [Option.some_inj, Prod.mk.injEq] at h
          obtain ⟨rfl, rfl⟩ := h
          simp only [List.map_cons, List.nodup_cons] at hnd
          rcases List.mem_cons.mp hmem with hmem | hmem
          · exact absurd (congrArg Prod.snd hmem) (by simp)
          · exact ihLinks s ref none 0 s1 log1 hL hnd.2 r p hmem
      · rename_i u
        split at h
        · exact absurd h (by simp)
        · rename_i node hget
          split at h
          · exact absurd h (by simp)
          · rename_i links' hmv
            split at h
            · exact absurd h (by simp)
            · rename_i s1 log1 hL
              rw [Option.some_inj, Prod.mk.injEq] at h
              obtain ⟨rfl, rfl⟩ := h
              simp only [List.map_cons, List.nodup_cons] at hnd
              rcases List.mem_cons.mp hmem with hmem | hmem
              · -- the node itself: its up-link was moved last, and the
                -- children's recursion never touches it again
                have hr1 : r = ref := by
                  have h1 := congrArg Prod.fst hmem
                  simpa using h1
                have hr2 : p = u := by
                  have h2 := congrArg Prod.snd hmem
                  simpa using h2
                subst hr1
                subst hr2
                have hframe := (sort_frame fuel).2 _ r (some p) 0 s1 log1 hL r hnd.1
                refine ⟨{ node with links := links' }, ?_,
                  moveUpLast_getLast p node.links links' hmv⟩
                rw [hframe, getAt_updateAt, if_pos rfl, hget]
                rfl
              · exact ihLinks _ ref (some u) 0 s1 log1 hL hnd.2 r p hmem
    · intro s ref up l s' log h hnd r p hmem
      simp only [ncclTopoSortLinks] at h
      split at h
      · exact absurd h (by simp)
      · rename_i node hget
        by_cases hlen : l < node.links.length
        · rw [dif_pos hlen] at h
          by_cases hcond : (node.links.get ⟨l, hlen⟩).type = LINK_PCI ∧
              some (node.links.get ⟨l, hlen⟩).remNode ≠ up
          · rw [if_pos hcond] at h
            split at h
            · exact absurd h (by simp)
            · rename_i s1 log1 hG
              split at h
              · exact absurd h (by simp)
              · rename_i s2 log2 hL
                rw [Option.some_inj, Prod.mk.injEq] at h
                obtain ⟨rfl, rfl⟩ := h
                rw [List.map_append] at hnd
                have hnd1 := (List.nodup_append.mp hnd).1
                have hnd2 := (List.nodup_append.mp hnd).2.1
                have hdisj := (List.nodup_append.mp hnd).2.2
                rcases List.mem_append.mp hmem with hmem | hmem
                · -- established in the child's subtree, preserved by the
                  -- later siblings (their logs are disjoint)
                  obtain ⟨nd, hnd', hx, hhx, hxu⟩ :=
                    ihGo s _ (some ref) s1 log1 hG hnd1 r p hmem
                  have hrin : r ∈ log1.map Prod.fst :=
                    List.mem_map.mpr ⟨(r, some p), hmem, rfl⟩
                  have hrout : r ∉ log2.map Prod.fst := fun hc => hdisj hrin hc
                  have hframe := (sort_frame fuel).2 s1 ref up (l + 1) s2 log2 hL r hrout
                  refine ⟨nd, ?_, hx, hhx, hxu⟩
                  rw [hframe]
                  exact hnd'
                · exact ihLinks s1 ref up (l + 1) s2 log2 hL hnd2 r p hmem
          · rw [if_neg hcond] at h
            exact ihLinks s ref up (l + 1) s' log h hnd r p hmem
        · rw [dif_neg hlen] at h
          rw [Option.some_inj, Prod.mk.injEq] at h
          obtain ⟨rfl, rfl⟩ := h
          simp at hmem

theorem sortLoop_frame : ∀ (fuel : Nat) (s : ncclTopoSystem) (n : Nat) s' log,
    ncclTopoSortSystemLoop fuel s n = some (s', log) →
    ∀ r, r ∉ log.map Prod.fst → getAt s' r = getAt s r := by
  intro fuel
  induction fuel with
  | zero =>
    intro s n s' log h
    exact absurd h (by simp [ncclTopoSortSystemLoop])
  | succ fuel ih =>
    intro s n s' log h r hr
    simp only [ncclTopoSortSystemLoop] at h
    split at h
    · split at h
      · exact absurd h (by simp)
      · rename_i s1 log1 hG
        split at h
        · exact absurd h (by simp)
        · rename_i s2 log2 hL
          rw [Option.some_inj, Prod.mk.injEq] at h
          obtain ⟨rfl, rfl⟩ := h
          simp only [List.map_append, List.mem_append, not_or] at hr
          rw [ih s1 (n + 1) s2 log2 hL r hr.2]
          exact (sort_frame fuel).1 s ⟨CPU, n⟩ none s1 log1 hG r hr.1
    · rw [Option.some_inj, Prod.mk.injEq] at h
      obtain ⟨rfl, rfl⟩ := h
      rfl

theorem sortLoop_main : ∀ (fuel : Nat) (s : ncclTopoSystem) (n : Nat) s' log,
    ncclTopoSortSystemLoop fuel s n = some (s', log) →
    (log.map Prod.fst).Nodup →
    ∀ r p, (r, some p) ∈ log → parentLinkLast s' r p := by
  intro fuel
  induction fuel with
  | zero =>
    intro s n s' log h
    exact absurd h (by simp [ncclTopoSortSystemLoop])
  | succ fuel ih =>
    intro s n s' log h hnd r p hmem
    simp only [ncclTopoSortSystemLoop] at h
    split at h
    · split at h
      · exact absurd h (by simp)
      · rename_i s1 log1 hG
        split at h
        · exact absurd h (by simp)
        · rename_i s2 log2 hL
          rw [Option.some_inj, Prod.mk.injEq] at h
          obtain ⟨rfl, rfl⟩ := h
          rw [List.map_append] at hnd
          have hnd1 := (List.nodup_append.mp hnd).1
          have hnd2 := (List.nodup_append.mp hnd).2.1
          have hdisj := (List.nodup_append.mp hnd).2.2
          rcases List.mem_append.mp hmem with hmem | hmem
          · obtain ⟨nd, hnd', hx, hhx, hxu⟩ :=
              (sort_main fuel).1 s ⟨CPU, n⟩ none s1 log1 hG hnd1 r p hmem
            have hrin : r ∈ log1.map Prod.fst :=
              List.mem_map.mpr ⟨(r, some p), hmem, rfl⟩
            have hrout : r ∉ log2.map Prod.fst := fun hc => hdisj hrin hc
            refine ⟨nd, ?_, hx, hhx, hxu⟩
            rw [sortLoop_frame fuel s1 (n + 1) s2 log2 hL r hrout]
            exact hnd'
          · exact ih s1 (n + 1) s2 log2 hL hnd2 r p hmem
    · rw [Option.some_inj, Prod.mk.injEq] at h
      obtain ⟨rfl, rfl⟩ := h
      simp at hmem

/-! ## Claim C5 -/

/-- Claim C5 (confirmed): when the canonicalizer `ncclTopoSortSystem`
terminates (fuel suffices) and visits each node at most once (the visit
log is duplicate-free — true of the PCI forests ingestion builds, where
the recursion, which crosses only PCI-kind links and never the link back
to the parent, is a tree walk), then (1) every visited node other than the
CPU roots — every node of the CPU-rooted PCI spanning tree recorded in the
log with its traversal parent — has the link back to its traversal parent
as the last entry of its link list, and (2) every node the pass never
reached, in particular every node reachable only via NVLink, inter-socket
or network links, is left completely unchanged (topo.cc:226-256; spec P8). -/
theorem claimC5_sort_parent_last (fuel : Nat) (s s' : ncclTopoSystem)
    (log : List (ncclTopoNodeRef × Option ncclTopoNodeRef))
    (hrun : ncclTopoSortSystem fuel s = some (s', log))
    (hnd : (log.map Prod.fst).Nodup) :
    (∀ r p, (r, some p) ∈ log → parentLinkLast s' r p)
    ∧ (∀ r, r ∉ log.map Prod.fst → getAt s' r = getAt s r) :=
  ⟨fun r p hmem => sortLoop_main fuel s 0 s' log hrun hnd r p hmem,
   fun r hr => sortLoop_frame fuel s 0 s' log hrun r hr⟩

/-- The spec's own scenario graph (one CPU, one PCI switch, one GPU with
its self-loop; PCI edge widths 16·60/80 = 12), as ingestion builds it. -/
def sC5 : ncclTopoSystem :=
  ⟨[[{ type := GPU
       id := 0x2000
       links := [{ type := LINK_LOC, width := 5000, remNode := ⟨0, 0⟩ },
                 { type := LINK_PCI, width := 12, remNode := ⟨1, 0⟩ }]
       rank := 0
       dev := 0
       cudaCompCap := 80 }],
    [{ type := PCI
       id := 0x200
       links := [{ type := LINK_PCI, width := 12, remNode := ⟨0, 0⟩ },
                 { type := LINK_PCI, width := 12, remNode := ⟨3, 0⟩ }] }],
    [],
    [{ type := CPU
       id := 0
       links := [{ type := LINK_PCI, width := 12, remNode := ⟨1, 0⟩ }]
       arch := 1
       vendor := 1
       model := 2 }],
    [], []]⟩

/-- Witness for C5: sorting the scenario graph visits CPU, switch, GPU in
depth-first order and leaves each non-root's parent link last. -/
theorem claimC5_sort_parent_last_witness :
    (∀ r p, (r, some p) ∈
        [((⟨3, 0⟩ : ncclTopoNodeRef), (none : Option ncclTopoNodeRef)),
         (⟨1, 0⟩, some ⟨3, 0⟩), (⟨0, 0⟩, some ⟨1, 0⟩)] →
      parentLinkLast sC5 r p)
    ∧ (∀ r, r ∉ ([((⟨3, 0⟩ : ncclTopoNodeRef), (none : Option ncclTopoNodeRef)),
         (⟨1, 0⟩, some ⟨3, 0⟩), (⟨0, 0⟩, some ⟨1, 0⟩)]).map Prod.fst →
      getAt sC5 r = getAt sC5 r) :=
  claimC5_sort_parent_last 20 sC5 sC5
    [(⟨3, 0⟩, none), (⟨1, 0⟩, some ⟨3, 0⟩), (⟨0, 0⟩, some ⟨1, 0⟩)]
    (by decide) (by decide)

/-! ## findLocalCpu (topo.cc:46-57)

The C function recurses through PCI links with no visited set and no
termination guarantee; the embedding is fuel-indexed (`none` = the fuel
ran out, i.e. the C recursion does not come back), and a completed call
returns `some r` where `r` is the `*cpu` out-parameter: `some cpuRef` when
a CPU was found, `none` when the walk completed without finding one (the C
function returns success with `*cpu == NULL` in that case). -/

mutual

def findLocalCpuGo : Nat → ncclTopoSystem → ncclTopoNodeRef →
    Option (Option ncclTopoNodeRef)
  | 0, _, _ => none
  | fuel + 1, s, ref =>
    match getAt s ref with
    | none => none
    | some node =>
      if node.type = CPU then some (some ref)
      else findLocalCpuLinks fuel s node.links

def findLocalCpuLinks : Nat → ncclTopoSystem → List ncclTopoLink →
    Option (Option ncclTopoNodeRef)
  | 0, _, _ => none
  | _ + 1, _, [] => some none
  | fuel + 1, s, l :: ls =>
    if l.type = LINK_PCI then
      match findLocalCpuGo fuel s l.remNode with
      | none => none
      | some (some c) => some (some c)
      | some none => findLocalCpuLinks fuel s ls
    else findLocalCpuLinks fuel s ls

end

/-- Divergence of `findLocalCpu`: no amount of fuel completes the call —
the C recursion never returns (stack overflow). -/
def findLocalCpuDiverges (s : ncclTopoSystem) (r : ncclTopoNodeRef) : Prop :=
  ∀ fuel, findLocalCpuGo fuel s r = none

theorem c10_diverges_aux : ∀ fuel : Nat,
    findLocalCpuGo fuel sC5 ⟨0, 0⟩ = none ∧
    findLocalCpuGo fuel sC5 ⟨1, 0⟩ = none := by
  intro fuel
  induction fuel using Nat.strong_induction_on with
  | _ fuel ih =>
    match fuel with
    | 0 => exact ⟨rfl, rfl⟩
    | 1 => exact ⟨by decide, by decide⟩
    | 2 => exact ⟨by decide, by decide⟩
    | (h + 3) =>
      constructor
      · have hsw := (ih h (by omega)).2
        have hred : findLocalCpuGo (h + 3) sC5 ⟨0, 0⟩ =
            match findLocalCpuGo h sC5 ⟨1, 0⟩ with
            | none => none
            | some (some c) => some (some c)
            | some none => findLocalCpuLinks h sC5 [] := rfl
        rw [hred, hsw]
      · have hgp := (ih (h + 1) (by omega)).1
        have hred : findLocalCpuGo (h + 3) sC5 ⟨1, 0⟩ =
            match findLocalCpuGo (h + 1) sC5 ⟨0, 0⟩ with
            | none => none
            | some (some c) => some (some c)
            | some none => findLocalCpuLinks (h + 1) sC5
                [{ type := LINK_PCI, width := 12, remNode := ⟨3, 0⟩ }] := rfl
        rw [hred, hgp]

/-! ## Claim C10 -/

/-- Counterexample to C10 as stated: on the spec's own scenario graph
`sC5` (CPU — PCI switch — GPU, both PCI edges of equal width 12, exactly
as PCI ingestion builds it), `findLocalCpu` starting at the GPU never
terminates: the switch's link list has the GPU link before the CPU link
(children are connected before the parent during ingestion, and the
widths are equal, so the backward insertion step leaves that order), so
the recursion oscillates GPU → switch → GPU → ... for ever, even though
the CPU is PCI-reachable. -/
theorem claimC10_counterexample : findLocalCpuDiverges sC5 ⟨0, 0⟩ :=
  fun fuel => (c10_diverges_aux fuel).1

/-- Claim C10 (corrected): the original claim — `findLocalCpu` terminates
on every graph produced by PCI ingestion and returns a CPU when one is
PCI-reachable — is false (see the counterexample: a PCI switch between
GPU and CPU with equal link widths makes the parent-blind recursion
oscillate).  What does hold, and covers the direct-attach topologies the
CPU-target NVLink resolution is used on (Power systems), is: whenever the
first PCI-kind link of the starting node points directly at a CPU node,
the call terminates — with fuel covering the non-PCI prefix of the link
list — and returns that CPU. -/
theorem claimC10_findLocalCpu_direct (s : ncclTopoSystem)
    (ref cpuRef : ncclTopoNodeRef) (node cnode : ncclTopoNode)
    (pre rest : List ncclTopoLink) (link : ncclTopoLink)
    (hget : getAt s ref = some node) (hnot : ¬ node.type = CPU)
    (hlinks : node.links = pre ++ link :: rest)
    (hpre : ∀ l ∈ pre, ¬ l.type = LINK_PCI)
    (hpci : link.type = LINK_PCI) (hrem : link.remNode = cpuRef)
    (hc : getAt s cpuRef = some cnode) (hcpu : cnode.type = CPU) :
    findLocalCpuGo (pre.length + 3) s ref = some (some cpuRef) := by
  have hskip : ∀ (p : List ncclTopoLink), (∀ l ∈ p, ¬ l.type = LINK_PCI) →
      findLocalCpuLinks (p.length + 2) s (p ++ link :: rest) = some (some cpuRef) := by
    intro p
    induction p with
    | nil =>
      intro _
      show findLocalCpuLinks (0 + 2) s (link :: rest) = some (some cpuRef)
      have h2 : (0 + 2 : Nat) = 1 + 1 := rfl
      rw [h2]
      show (if link.type = LINK_PCI then
          match findLocalCpuGo 1 s link.remNode with
          | none => none
          | some (some c) => some (some c)
          | some none => findLocalCpuLinks 1 s rest
        else findLocalCpuLinks 1 s rest) = some (some cpuRef)
      rw [if_pos hpci, hrem]
      have hgo : findLocalCpuGo 1 s cpuRef = some (some cpuRef) := by
        show findLocalCpuGo (0 + 1) s cpuRef = some (some cpuRef)
        rw [show (0 + 1 : Nat) = 1 from rfl]
        show (match getAt s cpuRef with
          | none => none
          | some node => if node.type = CPU then some (some cpuRef)
            else findLocalCpuLinks 0 s node.links) = some (some cpuRef)
        rw [hc]
        simp [hcpu]
      rw [hgo]
    | cons q p ih =>
      intro hq
      have hqn : ¬ q.type = LINK_PCI := hq q (List.mem_cons_self q p)
      have hp : ∀ l ∈ p, ¬ l.type = LINK_PCI := fun l hl => hq l (List.mem_cons_of_mem q hl)
      show findLocalCpuLinks ((q :: p).length + 2) s (q :: (p ++ link :: rest)) =
        some (some cpuRef)
      have hlen : (q :: p).length + 2 = (p.length + 2) + 1 := by simp
      rw [hlen]
      show (if q.type = LINK_PCI then
          match findLocalCpuGo (p.length + 2) s q.remNode with
          | none => none
          | some (some c) => some (some c)
          | some none => findLocalCpuLinks (p.length + 2) s (p ++ link :: rest)
        else findLocalCpuLinks (p.length + 2) s (p ++ link :: rest)) = some (some cpuRef)
      rw [if_neg hqn]
      exact ih hp
  have hmain : findLocalCpuGo (pre.length + 3) s ref =
      findLocalCpuLinks (pre.length + 2) s node.links := by
    have hsucc : pre.length + 3 = (pre.length + 2) + 1 := by omega
    rw [hsucc]
    show (match getAt s ref with
      | none => none
      | some node => if node.type = CPU then some (some ref)
        else findLocalCpuLinks (pre.length + 2) s node.links) =
      findLocalCpuLinks (pre.length + 2) s node.links
    rw [hget]
    simp [hnot]
  rw [hmain, hlinks]
  exact hskip pre hpre

/-- Witness for C10: a GPU directly attached to a CPU (P9-style). -/
def sC10 : ncclTopoSystem :=
  ⟨[[{ type := GPU
       id := 7
       links := [{ type := LINK_LOC, width := 5000, remNode := ⟨0, 0⟩ },
                 { type := LINK_PCI, width := 12, remNode := ⟨3, 0⟩ }]
       rank := 0
       cudaCompCap := 80 }],
    [], [],
    [{ type := CPU
       id := 0
       links := [{ type := LINK_PCI, width := 12, remNode := ⟨0, 0⟩ }] }],
    [], []]⟩

theorem claimC10_findLocalCpu_direct_witness :
    findLocalCpuGo (1 + 3) sC10 ⟨0, 0⟩ = some (some ⟨3, 0⟩) := by
  have h := claimC10_findLocalCpu_direct sC10 ⟨0, 0⟩ ⟨3, 0⟩
    { type := GPU
      id := 7
      links := [{ type := LINK_LOC, width := 5000, remNode := ⟨0, 0⟩ },
                { type := LINK_PCI, width := 12, remNode := ⟨3, 0⟩ }]
      rank := 0
      cudaCompCap := 80 }
    { type := CPU
      id := 0
      links := [{ type := LINK_PCI, width := 12, remNode := ⟨0, 0⟩ }] }
    [{ type := LINK_LOC, width := 5000, remNode := ⟨0, 0⟩ }] []
    { type := LINK_PCI, width := 12, remNode := ⟨3, 0⟩ }
    (by decide) (by decide) (by decide) (by decide) (by decide) (by decide)
    (by decide) (by decide)
  simpa using h

/-! ## String → value tables and the NVLink fabric pass -/

/-- Modelled from the spec: the key-value lookup helper `kvConvertToInt`
lives in a header missing from the repository slice; per the spec,
string→enum tables are ordered, first exact match wins, anything else is
the "unmatched" outcome (`none`; callers under `NCCLCHECK` treat it as a
fatal construction error per spec §7). -/
def kvConvertToInt? (str : String) (dict : List (String × Nat)) : Option Nat :=
  (dict.find? (fun kv => kv.1 = str)).map (·.2)

/-- The PCI class table at topo.cc:329. -/
def kvDictPciClass : List (String × Nat) :=
  [("0x060400", PCI), ("0x068000", NVS), ("0x068001", CPU),
   ("0x030200", GPU), ("0x030000", GPU), ("0x020700", NIC), ("0x020000", NIC)]

/-- The PCI generation table at topo.cc:330 (units of 100 Mbps per lane). -/
def kvDictPciGen : List (String × Nat) :=
  [("2.5 GT/s", 15), ("5 GT/s", 30), ("8 GT/s", 60), ("16 GT/s", 120)]

/-- The CPU architecture table at topo.cc:392.  The enum values live in
the missing header; the model fixes them as 1, 2, 3. -/
def NCCL_TOPO_CPU_ARCH_X86 : Nat := 1
def NCCL_TOPO_CPU_ARCH_POWER : Nat := 2
def NCCL_TOPO_CPU_ARCH_ARM : Nat := 3

def kvDictCpuArch : List (String × Nat) :=
  [("x86_64", NCCL_TOPO_CPU_ARCH_X86), ("arm64", NCCL_TOPO_CPU_ARCH_ARM),
   ("ppc64", NCCL_TOPO_CPU_ARCH_POWER)]

/-- The CPU vendor table at topo.cc:393 (enum values modelled as 1, 2). -/
def NCCL_TOPO_CPU_VENDOR_INTEL : Nat := 1
def NCCL_TOPO_CPU_VENDOR_AMD : Nat := 2

def kvDictCpuVendor : List (String × Nat) :=
  [("GenuineIntel", NCCL_TOPO_CPU_VENDOR_INTEL),
   ("AuthenticAMD", NCCL_TOPO_CPU_VENDOR_AMD)]

/-- Modelled from the spec: Intel CPU model classes (missing header). -/
def NCCL_TOPO_CPU_INTEL_BDW : Int := 1
def NCCL_TOPO_CPU_TYPE_SKL : Int := 2

/-- The connection tail of the nvlink branch (topo.cc:471-477): nothing
happens when the target could not be resolved (`remote == NULL`); else the
GPU→remote edge is added and, unless the remote is itself a GPU, the
reverse edge too.  Width = lane count × per-compute-capability rate. -/
def addNvLinkConnect (s : ncclTopoSystem) (gpuRef : ncclTopoNodeRef)
    (remote : Option ncclTopoNodeRef) (count : Nat) :
    Option ncclTopoSystem :=
  match remote with
  | none => some s
  | some rem =>
    let nvlSpeed : ℚ :=
      if ((getAt s gpuRef).getD default).cudaCompCap = 60 then PASCAL_NVLINK_WIDTH
      else VOLTA_NVLINK_WIDTH
    let s1 := ncclTopoConnectNodes s gpuRef rem LINK_NVL ((count : ℚ) * nvlSpeed)
    if ((getAt s1 rem).getD default).type ≠ GPU then
      some (ncclTopoConnectNodes s1 rem gpuRef LINK_NVL ((count : ℚ) * nvlSpeed))
    else some s1

/-- One `nvlink` leaf of `ncclTopoAddNvLinks` (topo.cc:438-477).  Bus-id
strings arrive pre-parsed (string parsing is the external collaborator's).
Result: outer `none` = `findLocalCpu` never returns (fuel exhausted);
`some none` = fatal error (`ncclInternalError`, aborting the build);
`some (some s')` = success with the new system. -/
def ncclTopoAddNvLink (fuel : Nat) (s : ncclTopoSystem) (pBusId count : Nat)
    (tclass : String) (target : Nat) : Option (Option ncclTopoSystem) :=
  match ncclTopoGetNode s GPU pBusId with
  | none => some none
  | some gpuRef =>
    match kvConvertToInt? tclass kvDictPciClass with
    | none => some none
    | some targetType =>
      if targetType = GPU then
        some (addNvLinkConnect s gpuRef (ncclTopoGetNode s GPU target) count)
      else if targetType = CPU then
        match findLocalCpuGo fuel s gpuRef with
        | none => none
        | some rem => some (addNvLinkConnect s gpuRef rem count)
      else
        if (typeNodes s NVS).length = 0 then
          match ncclTopoCreateNode s NVS 0 with
          | none => some none
          | some (s', rem) => some (addNvLinkConnect s' gpuRef (some rem) count)
        else some (addNvLinkConnect s gpuRef (some ⟨NVS, 0⟩) count)

/-! ## Claim C7 -/

/-- One-GPU system (bus id 5, ingestion-style self loop) used to exhibit
the silently-skipped unresolvable NVLink targets. -/
def sC7 : ncclTopoSystem :=
  ⟨[[{ type := GPU
       id := 5
       links := [{ type := LINK_LOC, width := 5000, remNode := ⟨0, 0⟩ }]
       rank := 0
       cudaCompCap := 80 }],
    [], [], [], [], []]⟩

/-- Counterexample to C7 as stated: a GPU-class NVLink target whose bus id
resolves to no node.  The claim says ingestion returns a fatal error; the
code (topo.cc:454-477) leaves `remote == NULL`, skips the `if (remote)`
block and returns success with the system unchanged. -/
theorem claimC7_counterexample :
    ncclTopoAddNvLink 10 sC7 5 1 "0x030200" 7 = some (some sC7) := by
  decide

/-- Claim C7 (corrected): of the three unresolvable-NVLink cases the claim
lists, only the missing SOURCE GPU aborts the build with a fatal error
(topo.cc:443-446); an unresolved GPU-class target and a CPU-class target
with no PCI-reachable CPU are silently skipped — no edge is added, no
error is returned, and the system is unchanged.  The last conjunct shows
the CPU-target skip concretely (the walk terminates without finding a
CPU on `sC7`). -/
theorem claimC7_nvlink_unresolved :
    (∀ (fuel : Nat) (s : ncclTopoSystem) (pBusId count : Nat)
        (tclass : String) (target : Nat),
      ncclTopoGetNode s GPU pBusId = none →
      ncclTopoAddNvLink fuel s pBusId count tclass target = some none)
    ∧ (∀ (fuel : Nat) (s : ncclTopoSystem) (pBusId count target : Nat)
        (tclass : String) (gpuRef : ncclTopoNodeRef),
      ncclTopoGetNode s GPU pBusId = some gpuRef →
      kvConvertToInt? tclass kvDictPciClass = some GPU →
      ncclTopoGetNode s GPU target = none →
      ncclTopoAddNvLink fuel s pBusId count tclass target = some (some s))
    ∧ (∀ (fuel : Nat) (s : ncclTopoSystem) (pBusId count target : Nat)
        (tclass : String) (gpuRef : ncclTopoNodeRef),
      ncclTopoGetNode s GPU pBusId = some gpuRef →
      kvConvertToInt? tclass kvDictPciClass = some CPU →
      findLocalCpuGo fuel s gpuRef = some none →
      ncclTopoAddNvLink fuel s pBusId count tclass target = some (some s))
    ∧ ncclTopoAddNvLink 10 sC7 5 1 "0x068001" 9 = some (some sC7) := by
  refine ⟨?_, ?_, ?_, by decide⟩
  · intro fuel s pBusId count tclass target h
    simp [ncclTopoAddNvLink, h]
  · intro fuel s pBusId count target tclass gpuRef h htc htgt
    simp [ncclTopoAddNvLink, h, htc, htgt, addNvLinkConnect]
  · intro fuel s pBusId count target tclass gpuRef h htc hfind
    have hne : ¬ (CPU = GPU) := by decide
    simp [ncclTopoAddNvLink, h, htc, hne, hfind, addNvLinkConnect]

/-! ## Hardware ingestion (topo.cc:267-435)

The hardware description tree is supplied by an external collaborator
(spec §6: "externally parsed hierarchical attributed tree"), so its
attributes arrive here pre-parsed: a missing optional attribute is `none`,
and the bus-id / GUID string parsers (`busIdToInt64`,
`ncclTopoIbGuidToUint64`, `sscanf`) are external — the tree carries their
numeric results. -/

structure ncclXmlGpu where
  dev : Int
  rank : Option Int
  sm : Int
  gdr : Int
deriving DecidableEq, Repr

structure ncclXmlNet where
  dev : Option Nat
  sysGuid : Option Nat
  speedMbps : Option Int
  linkRateGbps : Option Int
  gdr : Int
  coll : Option Int
deriving DecidableEq, Repr

structure ncclXmlNic where
  nets : List ncclXmlNet
deriving DecidableEq, Repr

inductive ncclXmlPci where
  | mk (classStr : String) (busId : Nat) (linkWidth : Nat) (linkSpeed : String)
      (gpuSub : Option ncclXmlGpu) (nicSub : Option ncclXmlNic)
      (subs : List ncclXmlPci)

structure ncclXmlCpu where
  numaid : Nat
  affinity : Option String
  archStr : String
  vendorStr : String
  familyId : Int
  modelId : Int
  pciSubs : List ncclXmlPci
  nicSubs : List (Nat × ncclXmlNic)

/-- `ncclTopoAddNet` (topo.cc:267-301): create the NET leaf, derive its
identity (GUID else device index), its bandwidth (explicit Gb/s rate ×
1000, else the Mbps attribute, else the 10000 Mbps default; divided by
8000 for GB/s-equivalent units), copy the flags, and connect NIC↔NET in
both directions. -/
def ncclTopoAddNet (x : ncclXmlNet) (s : ncclTopoSystem)
    (nicRef : ncclTopoNodeRef) (port : Int) (dev : Nat) :
    Option ncclTopoSystem :=
  match ncclTopoCreateNode s NET dev with
  | none => none
  | some (s1, netRef) =>
    let asic := x.sysGuid.getD dev
    let mbps0 : Int := x.speedMbps.getD 0
    let mbps1 : Int := match x.linkRateGbps with
      | some g => g * 1000
      | none => mbps0
    let mbps : Int := if mbps1 ≤ 0 then 10000 else mbps1
    let w : ℚ := (mbps : ℚ) / 8000
    let s2 := updateAt s1 netRef fun n =>
      { n with
        asic := asic
        netWidth := w
        port := port
        gdrSupport := x.gdr
        collSupport := x.coll.getD 0 }
    some (ncclTopoConnectNodes
      (ncclTopoConnectNodes s2 nicRef netRef LINK_NET w) netRef nicRef LINK_NET w)

/-- The net loop of `ncclTopoAddNic` (topo.cc:308-316): net descriptors
without a `dev` attribute are skipped; the port index advances per added
net. -/
def addNicNets : List ncclXmlNet → ncclTopoSystem → ncclTopoNodeRef → Int →
    Option ncclTopoSystem
  | [], s, _, _ => some s
  | x :: rest, s, nicRef, port =>
    match x.dev with
    | none => addNicNets rest s nicRef port
    | some dev =>
      match ncclTopoAddNet x s nicRef port dev with
      | none => none
      | some s' => addNicNets rest s' nicRef (port + 1)

/-- `ncclTopoAddNic` (topo.cc:303-318): the starting port index continues
from the NET neighbours already attached to this NIC node. -/
def ncclTopoAddNic (x : ncclXmlNic) (s : ncclTopoSystem)
    (nicRef : ncclTopoNodeRef) : Option ncclTopoSystem :=
  let port : Int := (((getAt s nicRef).getD default).links.countP
    (fun l => decide (((getAt s l.remNode).getD default).type = NET)) : Nat)
  addNicNets x.nets s nicRef port

/-- `ncclTopoAddGpu` (topo.cc:320-327): copy the GPU payload verbatim
(`rk` is the rank attribute, whose presence the caller checked). -/
def ncclTopoAddGpu (x : ncclXmlGpu) (rk : Int) (s : ncclTopoSystem)
    (gpuRef : ncclTopoNodeRef) : ncclTopoSystem :=
  updateAt s gpuRef fun n =>
    { n with
      cudaCompCap := x.sm
      rank := rk
      dev := x.dev
      gdrSupport := x.gdr }

/-- ASCII lower-casing of one character, for the `strcasecmp` model. -/
def asciiLower (c : Char) : Char :=
  if 'A' ≤ c ∧ c ≤ 'Z' then Char.ofNat (c.toNat + 32) else c

/-- Model of `strcasecmp(a, b) == 0`: equal up to ASCII case. -/
def strCaseEq (a b : String) : Prop :=
  a.data.map asciiLower = b.data.map asciiLower

instance (a b : String) : Decidable (strCaseEq a b) := by
  unfold strCaseEq; infer_instance

/-- The link-speed default of topo.cc:382: an empty or (case-insensitive)
"Unknown speed" attribute falls back to "8 GT/s". -/
def pciLinkSpeedStr (str : String) : String :=
  if str.length = 0 ∨ strCaseEq str "Unknown speed" then "8 GT/s" else str

/-- The link-width computation of topo.cc:381-386: default 16 lanes,
lane count × per-lane rate (100 Mbps units) / 80 giving width units. -/
def pciWidthVal (linkWidth speed : Nat) : ℚ :=
  (((if linkWidth = 0 then 16 else linkWidth) * speed : Nat) : ℚ) / 80

/-- The `if (node)` block of `ncclTopoAddPci` (topo.cc:375-388): apply the
attribute defaults, look the generation string up, and connect the node to
its parent with the derived width, in both directions. -/
def pciConnectParent (s : ncclTopoSystem) (nd parent : ncclTopoNodeRef)
    (linkWidth : Nat) (linkSpeed : String) : Option ncclTopoSystem :=
  match kvConvertToInt? (pciLinkSpeedStr linkSpeed) kvDictPciGen with
  | none => none
  | some speed =>
    let w := pciWidthVal linkWidth speed
    some (ncclTopoConnectNodes
      (ncclTopoConnectNodes s nd parent LINK_PCI w) parent nd LINK_PCI w)

mutual

/-- `ncclTopoAddPci` (topo.cc:331-390).  GPU descriptors without a gpu sub
node or without a rank attribute are skipped entirely; NIC sub devices
merge onto one node (low 4 bus-id bits cleared) found by get-or-create,
and only a freshly created NIC is connected to the parent; PCI switches
recurse into their children before being connected to the parent. -/
def ncclTopoAddPci : ncclXmlPci → ncclTopoSystem → ncclTopoNodeRef →
    Option ncclTopoSystem
  | .mk classStr busId linkWidth linkSpeed gpuSub nicSub subs, s, parent =>
    match kvConvertToInt? classStr kvDictPciClass with
    | none => none
    | some type =>
      if type = GPU then
        match gpuSub with
        | none => some s
        | some g =>
          match g.rank with
          | none => some s
          | some rk =>
            match ncclTopoCreateNode s GPU busId with
            | none => none
            | some (s1, nodeRef) =>
              pciConnectParent (ncclTopoAddGpu g rk s1 nodeRef) nodeRef parent
                linkWidth linkSpeed
      else if type = NIC then
        match nicSub with
        | none => some s
        | some nic =>
          match ncclTopoGetNode s NIC (busId - busId % 16) with
          | some nicRef =>
            match ncclTopoAddNic nic s nicRef with
            | none => none
            | some s' => some s'
          | none =>
            match ncclTopoCreateNode s NIC (busId - busId % 16) with
            | none => none
            | some (s1, nicRef) =>
              match ncclTopoAddNic nic s1 nicRef with
              | none => none
              | some s2 => pciConnectParent s2 nicRef parent linkWidth linkSpeed
      else if type = PCI then
        match ncclTopoCreateNode s PCI busId with
        | none => none
        | some (s1, nodeRef) =>
          match ncclTopoAddPciSubs subs s1 nodeRef with
          | none => none
          | some s2 => pciConnectParent s2 nodeRef parent linkWidth linkSpeed
      else some s

/-- The child loop at topo.cc:369-372. -/
def ncclTopoAddPciSubs : List ncclXmlPci → ncclTopoSystem → ncclTopoNodeRef →
    Option ncclTopoSystem
  | [], s, _ => some s
  | x :: rest, s, parent =>
    match ncclTopoAddPci x s parent with
    | none => none
    | some s' => ncclTopoAddPciSubs rest s' parent

end

/-- The architecture / vendor / model refinement of topo.cc:406-417. -/
def addCpuArch (x : ncclXmlCpu) (s : ncclTopoSystem)
    (cpuRef : ncclTopoNodeRef) : Option ncclTopoSystem :=
  match kvConvertToInt? x.archStr kvDictCpuArch with
  | none => none
  | some arch =>
    let s' := updateAt s cpuRef fun n => { n with arch := (arch : Int) }
    if arch = NCCL_TOPO_CPU_ARCH_X86 then
      match kvConvertToInt? x.vendorStr kvDictCpuVendor with
      | none => none
      | some vendor =>
        let s'' := updateAt s' cpuRef fun n => { n with vendor := (vendor : Int) }
        if vendor = NCCL_TOPO_CPU_VENDOR_INTEL then
          some (updateAt s'' cpuRef fun n =>
            { n with model := if x.familyId = 6 ∧ 0x55 ≤ x.modelId
                then NCCL_TOPO_CPU_TYPE_SKL else NCCL_TOPO_CPU_INTEL_BDW })
        else some s''
    else some s'

/-- The nic-under-cpu loop of topo.cc:421-432: get-or-create by the id
attribute; only a freshly created NIC is connected to the CPU (loopback
width), then its net subs are ingested. -/
def addCpuNics : List (Nat × ncclXmlNic) → ncclTopoSystem → ncclTopoNodeRef →
    Option ncclTopoSystem
  | [], s, _ => some s
  | (id, nic) :: rest, s, cpuRef =>
    let step : Option ncclTopoSystem :=
      match ncclTopoGetNode s NIC id with
      | some nicRef => ncclTopoAddNic nic s nicRef
      | none =>
        match ncclTopoCreateNode s NIC id with
        | none => none
        | some (s1, nicRef) =>
          ncclTopoAddNic nic
            (ncclTopoConnectNodes
              (ncclTopoConnectNodes s1 cpuRef nicRef LINK_PCI LOC_WIDTH)
              nicRef cpuRef LINK_PCI LOC_WIDTH) nicRef
    match step with
    | none => none
    | some s' => addCpuNics rest s' cpuRef

/-- `ncclTopoAddCpu` (topo.cc:395-435): one CPU node per descriptor —
created unconditionally by `ncclTopoCreateNode`, with no lookup — then
affinity, arch/vendor/model, and the sub-descriptors.  (The C code walks
the children in document order; the model ingests the pci children, then
the nic children — no claim depends on that interleaving.) -/
def ncclTopoAddCpu (x : ncclXmlCpu) (s : ncclTopoSystem) :
    Option ncclTopoSystem :=
  match ncclTopoCreateNode s CPU x.numaid with
  | none => none
  | some (s1, cpuRef) =>
    let s2 := match x.affinity with
      | some a => updateAt s1 cpuRef fun n => { n with affinity := some a }
      | none => s1
    match addCpuArch x s2 cpuRef with
    | none => none
    | some s3 =>
      match ncclTopoAddPciSubs x.pciSubs s3 cpuRef with
      | none => none
      | some s4 => addCpuNics x.nicSubs s4 cpuRef

/-! ## Claim C8 -/

/-- Number of nodes of one type carrying a given id. -/
def idCount (s : ncclTopoSystem) (t id : Nat) : Nat :=
  (typeNodes s t).countP (fun n => decide (n.id = id))

theorem getNodeIdx_none_iff (id : Nat) (l : List ncclTopoNode) :
    getNodeIdx id l = none ↔ l.countP (fun n => decide (n.id = id)) = 0 := by
  induction l with
  | nil => simp [getNodeIdx]
  | cons n ns ih =>
    by_cases h : n.id = id
    · simp [getNodeIdx, h, List.countP_cons]
    · simp [getNodeIdx, h, List.countP_cons, Option.map_eq_none', ih]

theorem getNodeIdx_some_count (id : Nat) (l : List ncclTopoNode) (i : Nat)
    (h : getNodeIdx id l = some i) :
    1 ≤ l.countP (fun n => decide (n.id = id)) := by
  induction l generalizing i with
  | nil => simp [getNodeIdx] at h
  | cons n ns ih =>
    by_cases hn : n.id = id
    · simp [List.countP_cons, hn]
    · simp only [getNodeIdx, if_neg hn] at h
      cases hg : getNodeIdx id ns with
      | none => rw [hg] at h; simp at h
      | some j =>
        rw [List.countP_cons]
        have := ih j hg
        omega

theorem getNodeIdx_append_last (id : Nat) (l : List ncclTopoNode)
    (n : ncclTopoNode) (hl : getNodeIdx id l = none) (hn : n.id = id) :
    getNodeIdx id (l ++ [n]) = some l.length := by
  induction l with
  | nil => simp [getNodeIdx, hn]
  | cons m ms ih =>
    simp only [getNodeIdx] at hl
    by_cases hm : m.id = id
    · simp [hm] at hl
    · rw [if_neg hm] at hl
      have hms : getNodeIdx id ms = none := by
        cases hg : getNodeIdx id ms with
        | none => rfl
        | some j => rw [hg] at hl; simp at hl
      rw [List.cons_append]
      simp only [getNodeIdx, if_neg hm]
      rw [ih hms]
      simp

theorem initNode_id (t id slot : Nat) : (initNode t id slot).id = id := by
  simp only [initNode]
  split
  · rfl
  · split
    · rfl
    · split <;> rfl

theorem typeNodes_appendNode (s : ncclTopoSystem) (t : Nat)
    (n : ncclTopoNode) (hlt : t < s.nodes.length) :
    typeNodes (appendNode s t n) t = typeNodes s t ++ [n] := by
  simp only [typeNodes, appendNode, List.get?_eq_getElem?, listMapIdx_get?]
  cases hg : s.nodes[t]? with
  | none =>
    exfalso
    rw [List.getElem?_eq_none_iff] at hg
    omega
  | some l => simp

/-- Counterexample to C8 as stated: ingestion does NOT always look up
before creating.  `ncclTopoAddCpu` (topo.cc:395-399) creates a CPU node
for its numa id unconditionally, so ingesting two cpu descriptors with
the same numa id leaves two CPU nodes with the same (type, id) in the
registry. -/
def xmlCpu0 : ncclXmlCpu :=
  { numaid := 0
    affinity := none
    archStr := "x86_64"
    vendorStr := "GenuineIntel"
    familyId := 6
    modelId := 85
    pciSubs := []
    nicSubs := [] }

theorem claimC8_counterexample :
    ((ncclTopoAddCpu xmlCpu0 emptySystem).bind (ncclTopoAddCpu xmlCpu0)).map
      (fun s => idCount s CPU 0) = some 2 := by
  decide

/-- Claim C8 (corrected): the get-or-create pattern itself (lookup before
create, as ingestion uses for NIC nodes at topo.cc:361-365 and
topo.cc:425-430 and for the shared NVSwitch node) is idempotent: from a
registry holding at most one node with the given (type, id) and with
capacity left, one call leaves exactly one such node, and calling again
returns the very same state and node pointer — so any number of repeats
yields exactly one node.  But not every ingestion operation goes through
this pattern: CPU nodes (and rank-bearing GPU and NET leaves) are created
unconditionally, so duplicate descriptors duplicate nodes (see the
counterexample). -/
theorem claimC8_get_or_create (s : ncclTopoSystem) (t id : Nat)
    (hlt : t < s.nodes.length)
    (hcap : (typeNodes s t).length < NCCL_TOPO_MAX_NODES)
    (hle : idCount s t id ≤ 1) :
    ∃ s' r, getOrCreateNode s t id = some (s', r)
      ∧ idCount s' t id = 1
      ∧ getOrCreateNode s' t id = some (s', r) := by
  unfold getOrCreateNode ncclTopoGetNode
  cases hg : getNodeIdx id (typeNodes s t) with
  | some i =>
    refine ⟨s, ⟨t, i⟩, by simp, ?_, by simp [hg]⟩
    have h1 := getNodeIdx_some_count id (typeNodes s t) i hg
    unfold idCount at hle ⊢
    omega
  | none =>
    simp only [Option.map_none']
    unfold ncclTopoCreateNode
    rw [if_neg (by omega)]
    set len := (typeNodes s t).length with hlen
    set nw := initNode t id len with hnw
    refine ⟨appendNode s t nw, ⟨t, len⟩, rfl, ?_, ?_⟩
    · unfold idCount
      rw [typeNodes_appendNode s t nw hlt, List.countP_append]
      have h0 : (typeNodes s t).countP (fun n => decide (n.id = id)) = 0 :=
        (getNodeIdx_none_iff id (typeNodes s t)).mp hg
      have hid : nw.id = id := initNode_id t id len
      simp [h0, hid]
    · rw [typeNodes_appendNode s t nw hlt]
      rw [getNodeIdx_append_last id (typeNodes s t) nw hg (initNode_id t id len)]
      simp

/-- Witness for C8: a fresh NIC id in the empty system. -/
theorem claimC8_get_or_create_witness :
    ∃ s' r, getOrCreateNode emptySystem NIC 3 = some (s', r)
      ∧ idCount s' NIC 3 = 1
      ∧ getOrCreateNode s' NIC 3 = some (s', r) :=
  claimC8_get_or_create emptySystem NIC 3 (by decide) (by decide) (by decide)

/-! ## Claim C4 -/

/-- Claim C4 (confirmed): a PCI descriptor with link_width=16 and
link_speed "8 GT/s" — and equally one with the width attribute 0/absent or
the speed attribute empty or "Unknown speed", which fall back to exactly
those defaults — yields the per-lane value 60 (kvDictPciGen), a link width
of 16·60/80 = 12.0, and the `if (node)` block connects node and parent
with width 12 in both directions; on a link list with no prior entry for
the pair the resulting edge entry is exactly one entry of width 12
(topo.cc:375-388, topo.cc:330; spec P6). -/
theorem claimC4_pci_bandwidth (lw : Nat) (ls : String) (s : ncclTopoSystem)
    (nd parent : ncclTopoNodeRef)
    (hlw : lw = 16 ∨ lw = 0)
    (hls : ls = "8 GT/s" ∨ ls = "" ∨ ls = "Unknown speed") :
    kvConvertToInt? (pciLinkSpeedStr ls) kvDictPciGen = some 60
    ∧ pciWidthVal lw 60 = 12
    ∧ pciConnectParent s nd parent lw ls =
        some (ncclTopoConnectNodes
          (ncclTopoConnectNodes s nd parent LINK_PCI 12) parent nd LINK_PCI 12)
    ∧ (∀ (links : List ncclTopoLink) (r : ncclTopoNodeRef),
        links.countP (linkMatchB r LINK_PCI) = 0 →
        (ncclTopoConnectLinks links r LINK_PCI 12).filter (linkMatchB r LINK_PCI) =
          [{ type := LINK_PCI, width := 12, remNode := r }]) := by
  have hkv : kvConvertToInt? (pciLinkSpeedStr ls) kvDictPciGen = some 60 := by
    rcases hls with h | h | h <;> subst h <;> decide
  have hwv : pciWidthVal lw 60 = 12 := by
    rcases hlw with h | h <;> subst h <;> norm_num [pciWidthVal]
  refine ⟨hkv, hwv, ?_, ?_⟩
  · simp only [pciConnectParent, hkv, hwv]
  · intro links r h
    exact connectGo_filter_zero r LINK_PCI 12 links [] (by simp) h

/-- Witness for C4: the default-attribute case on the empty system. -/
theorem claimC4_pci_bandwidth_witness :
    kvConvertToInt? (pciLinkSpeedStr "") kvDictPciGen = some 60
    ∧ pciWidthVal 0 60 = 12
    ∧ pciConnectParent emptySystem ⟨0, 0⟩ ⟨3, 0⟩ 0 "" =
        some (ncclTopoConnectNodes
          (ncclTopoConnectNodes emptySystem ⟨0, 0⟩ ⟨3, 0⟩ LINK_PCI 12)
          ⟨3, 0⟩ ⟨0, 0⟩ LINK_PCI 12)
    ∧ (∀ (links : List ncclTopoLink) (r : ncclTopoNodeRef),
        links.countP (linkMatchB r LINK_PCI) = 0 →
        (ncclTopoConnectLinks links r LINK_PCI 12).filter (linkMatchB r LINK_PCI) =
          [{ type := LINK_PCI, width := 12, remNode := r }]) :=
  claimC4_pci_bandwidth 0 "" emptySystem ⟨0, 0⟩ ⟨3, 0⟩ (by decide) (by decide)

/-! ## Claim C6: the affinity selector's CPU choice (topo.cc:606-626) -/

/-- The closer-CPU loop at topo.cc:612-619: `cpuIndex` starts at -1
(`none`), `minHops` at 0; the first iteration always takes the slot, then
a strictly smaller hop count replaces it. -/
def chooseCpuLoop : List Nat → Nat → Option Nat → Nat → Option Nat
  | [], _, cpuIndex, _ => cpuIndex
  | h :: rest, c, cpuIndex, minHops =>
    if cpuIndex = none ∨ h < minHops then chooseCpuLoop rest (c + 1) (some c) h
    else chooseCpuLoop rest (c + 1) cpuIndex minHops

/-- The hop counts the loop reads: `paths[CPU][c].count` for each CPU
slot `c` (the path tables are the external path-search pass's output,
carried in the `pathsCpu` field). -/
def gpuCpuCounts (node : ncclTopoNode) (cpuCount : Nat) : List Nat :=
  (List.range cpuCount).map fun c => node.pathsCpu.getD c 0

/-- The GPU scan of `ncclTopoSetAffinity` (topo.cc:608-621): every GPU
with the requested rank recomputes the choice, so the last match wins;
outer `none` = no GPU for the rank (the `cpu == NULL` fatal error), inner
`none` = no CPU nodes at all (`cpuIndex` stays -1). -/
def ncclTopoSetAffinityCpu (s : ncclTopoSystem) (rank : Int) :
    Option (Option Nat) :=
  (typeNodes s GPU).foldl
    (fun acc node =>
      if node.rank = rank then
        some (chooseCpuLoop (gpuCpuCounts node (typeNodes s CPU).length) 0 none 0)
      else acc)
    none

theorem chooseCpuLoop_some (counts : List Nat) :
    ∀ (c a m : Nat),
      ∃ r, chooseCpuLoop counts c (some a) m = some r ∧
        ((r = a ∧ ∀ j < counts.length, m ≤ counts.getD j 0) ∨
         (∃ i, i < counts.length ∧ r = c + i ∧ counts.getD i 0 < m ∧
           (∀ j < counts.length, counts.getD i 0 ≤ counts.getD j 0) ∧
           (∀ j < i, counts.getD i 0 < counts.getD j 0))) := by
  induction counts with
  | nil =>
    intro c a m
    exact ⟨a, rfl, Or.inl ⟨rfl, by simp⟩⟩
  | cons h rest ih =>
    intro c a m
    by_cases hm : h < m
    · have hstep : chooseCpuLoop (h :: rest) c (some a) m =
          chooseCpuLoop rest (c + 1) (some c) h := by
        simp [chooseCpuLoop, hm]
      obtain ⟨r, hr, hcase⟩ := ih (c + 1) c h
      refine ⟨r, hstep.trans hr, Or.inr ?_⟩
      rcases hcase with ⟨rfl, hall⟩ | ⟨i, hi, rfl, hlt, hmin, hstrict⟩
      · refine ⟨0, by simp, by omega, by simpa using hm, ?_, by omega⟩
        intro j hj
        cases j with
        | zero => simp
        | succ k =>
          simp only [List.getD_cons_zero, List.getD_cons_succ]
          exact hall k (by simpa using hj)
      · refine ⟨i + 1, by simpa using hi, by omega, ?_, ?_, ?_⟩
        · simpa using lt_trans hlt hm
        · intro j hj
          cases j with
          | zero =>
            simp only [List.getD_cons_zero, List.getD_cons_succ]
            omega
          | succ k =>
            simp only [List.getD_cons_succ]
            exact hmin k (by simpa using hj)
        · intro j hj
          cases j with
          | zero =>
            simp only [List.getD_cons_zero, List.getD_cons_succ]
            omega
          | succ k =>
            simp only [List.getD_cons_succ]
            exact hstrict k (by omega)
    · have hstep : chooseCpuLoop (h :: rest) c (some a) m =
          chooseCpuLoop rest (c + 1) (some a) m := by
        simp [chooseCpuLoop, hm]
      obtain ⟨r, hr, hcase⟩ := ih (c + 1) a m
      refine ⟨r, hstep.trans hr, ?_⟩
      rcases hcase with ⟨rfl, hall⟩ | ⟨i, hi, rfl, hlt, hmin, hstrict⟩
      · refine Or.inl ⟨rfl, ?_⟩
        intro j hj
        cases j with
        | zero => simpa using Nat.le_of_not_lt hm
        | succ k =>
          simp only [List.getD_cons_succ]
          exact hall k (by simpa using hj)
      · refine Or.inr ⟨i + 1, by simpa using hi, by omega, ?_, ?_, ?_⟩
        · simpa using hlt
        · intro j hj
          cases j with
          | zero =>
            simp only [List.getD_cons_zero, List.getD_cons_succ]
            omega
          | succ k =>
            simp only [List.getD_cons_succ]
            exact hmin k (by simpa using hj)
        · intro j hj
          cases j with
          | zero =>
            simp only [List.getD_cons_zero, List.getD_cons_succ]
            omega
          | succ k =>
            simp only [List.getD_cons_succ]
            exact hstrict k (by omega)

theorem chooseCpuLoop_argmin (counts : List Nat) (hne : counts ≠ []) :
    ∃ i, chooseCpuLoop counts 0 none 0 = some i ∧ i < counts.length ∧
      (∀ j < counts.length, counts.getD i 0 ≤ counts.getD j 0) ∧
      (∀ j < i, counts.getD i 0 < counts.getD j 0) := by
  cases counts with
  | nil => exact absurd rfl hne
  | cons h rest =>
    have hstep : chooseCpuLoop (h :: rest) 0 none 0 =
        chooseCpuLoop rest 1 (some 0) h := by
      simp [chooseCpuLoop]
    obtain ⟨r, hr, hcase⟩ := chooseCpuLoop_some rest 1 0 h
    rcases hcase with ⟨rfl, hall⟩ | ⟨i, hi, rfl, hlt, hmin, hstrict⟩
    · refine ⟨0, hstep.trans hr, by simp, ?_, by omega⟩
      intro j hj
      cases j with
      | zero => simp
      | succ k =>
        simp only [List.getD_cons_zero, List.getD_cons_succ]
        exact hall k (by simpa using hj)
    · refine ⟨1 + i, hstep.trans hr, by simp only [List.length_cons]; omega, ?_, ?_⟩
      · intro j hj
        have h1i : 1 + i = i + 1 := by omega
        rw [h1i]
        cases j with
        | zero =>
          simp only [List.getD_cons_zero, List.getD_cons_succ]
          omega
        | succ k =>
          simp only [List.getD_cons_succ]
          exact hmin k (by simpa using hj)
      · intro j hj
        have h1i : 1 + i = i + 1 := by omega
        rw [h1i]
        cases j with
        | zero =>
          simp only [List.getD_cons_zero, List.getD_cons_succ]
          omega
        | succ k =>
          simp only [List.getD_cons_succ]
          exact hstrict k (by omega)

theorem affinity_foldl_no_match (s : ncclTopoSystem) (rank : Int) :
    ∀ (l : List ncclTopoNode) (acc : Option (Option Nat)),
      (∀ n ∈ l, ¬ n.rank = rank) →
      l.foldl
        (fun acc node =>
          if node.rank = rank then
            some (chooseCpuLoop (gpuCpuCounts node (typeNodes s CPU).length) 0 none 0)
          else acc)
        acc = acc := by
  intro l
  induction l with
  | nil => intro acc _; rfl
  | cons n ns ih =>
    intro acc hno
    have hn : ¬ n.rank = rank := hno n (List.mem_cons_self n ns)
    simp only [List.foldl_cons, if_neg hn]
    exact ih acc fun m hm => hno m (List.mem_cons_of_mem n hm)

theorem gpuCpuCounts_length (node : ncclTopoNode) (cpuCount : Nat) :
    (gpuCpuCounts node cpuCount).length = cpuCount := by
  simp [gpuCpuCounts]

/-! ## Claim C6 -/

/-- Claim C6 (confirmed): for a system holding a GPU with the requested
rank (the last such GPU, as the scan at topo.cc:608-621 lets later matches
overwrite earlier ones) and at least one CPU node, the affinity selector
resolves the CPU slot with the minimum precomputed hop count
`paths[CPU][c].count` to that GPU, breaking ties towards the lowest CPU
index (the loop replaces the candidate only on a strictly smaller count)
(topo.cc:606-626; spec P7, selection half). -/
theorem claimC6_affinity_cpu_choice (s : ncclTopoSystem) (rank : Int)
    (g : Nat) (gnode : ncclTopoNode)
    (hg : (typeNodes s GPU)[g]? = some gnode)
    (hrank : gnode.rank = rank)
    (hlast : ∀ (j : Nat) (node' : ncclTopoNode), g < j →
      (typeNodes s GPU)[j]? = some node' → ¬ node'.rank = rank)
    (hcpu : 0 < (typeNodes s CPU).length) :
    ∃ c, ncclTopoSetAffinityCpu s rank = some (some c)
      ∧ c < (typeNodes s CPU).length
      ∧ (∀ j < (typeNodes s CPU).length,
          (gpuCpuCounts gnode (typeNodes s CPU).length).getD c 0 ≤
          (gpuCpuCounts gnode (typeNodes s CPU).length).getD j 0)
      ∧ (∀ j < c,
          (gpuCpuCounts gnode (typeNodes s CPU).length).getD c 0 <
          (gpuCpuCounts gnode (typeNodes s CPU).length).getD j 0) := by
  obtain ⟨hglen, hgeq⟩ := List.getElem?_eq_some.mp hg
  set L := typeNodes s GPU with hL
  set counts := gpuCpuCounts gnode (typeNodes s CPU).length with hcounts
  have hclen : counts.length = (typeNodes s CPU).length :=
    gpuCpuCounts_length gnode _
  have hne : counts ≠ [] := by
    intro hc
    rw [hc] at hclen
    simp at hclen
    omega
  obtain ⟨i, hrun, hilen, hmin, hstrict⟩ := chooseCpuLoop_argmin counts hne
  refine ⟨i, ?_, by omega, fun j hj => hmin j (by omega), hstrict⟩
  have hdecomp : L = L.take g ++ (gnode :: L.drop (g + 1)) := by
    conv_lhs => rw [← List.take_append_drop g L]
    congr 1
    rw [List.drop_eq_getElem_cons hglen, hgeq]
  unfold ncclTopoSetAffinityCpu
  rw [← hL, hdecomp, List.foldl_append, List.foldl_cons, if_pos hrank]
  rw [affinity_foldl_no_match s rank (L.drop (g + 1)) _ ?_]
  · rw [← hcounts, hrun]
  · intro n hn
    rw [List.mem_iff_getElem?] at hn
    obtain ⟨k, hk⟩ := hn
    rw [List.getElem?_drop] at hk
    exact hlast (g + 1 + k) n (by omega) hk

/-- System for the C6 witness: one GPU of rank 0 whose hop counts to the
three CPUs are [2, 1, 1] — CPU 1 wins (minimum 1, tie broken by index). -/
def sC6 : ncclTopoSystem :=
  ⟨[[{ type := GPU
       id := 9
       links := [{ type := LINK_LOC, width := 5000, remNode := ⟨0, 0⟩ }]
       rank := 0
       cudaCompCap := 80
       pathsCpu := [2, 1, 1] }],
    [], [],
    [{ type := CPU, id := 0, links := [] },
     { type := CPU, id := 1, links := [] },
     { type := CPU, id := 2, links := [] }],
    [], []]⟩

theorem claimC6_affinity_cpu_choice_witness :
    ∃ c, ncclTopoSetAffinityCpu sC6 0 = some (some c)
      ∧ c < (typeNodes sC6 CPU).length
      ∧ (∀ j < (typeNodes sC6 CPU).length,
          (gpuCpuCounts { type := GPU
                          id := 9
                          links := [{ type := LINK_LOC, width := 5000, remNode := ⟨0, 0⟩ }]
                          rank := 0
                          cudaCompCap := 80
                          pathsCpu := [2, 1, 1] } (typeNodes sC6 CPU).length).getD c 0 ≤
          (gpuCpuCounts { type := GPU
                          id := 9
                          links := [{ type := LINK_LOC, width := 5000, remNode := ⟨0, 0⟩ }]
                          rank := 0
                          cudaCompCap := 80
                          pathsCpu := [2, 1, 1] } (typeNodes sC6 CPU).length).getD j 0)
      ∧ (∀ j < c,
          (gpuCpuCounts { type := GPU
                          id := 9
                          links := [{ type := LINK_LOC, width := 5000, remNode := ⟨0, 0⟩ }]
                          rank := 0
                          cudaCompCap := 80
                          pathsCpu := [2, 1, 1] } (typeNodes sC6 CPU).length).getD c 0 <
          (gpuCpuCounts { type := GPU
                          id := 9
                          links := [{ type := LINK_LOC, width := 5000, remNode := ⟨0, 0⟩ }]
                          rank := 0
                          cudaCompCap := 80
                          pathsCpu := [2, 1, 1] } (typeNodes sC6 CPU).length).getD j 0) :=
  claimC6_affinity_cpu_choice sC6 0 0
    { type := GPU
      id := 9
      links := [{ type := LINK_LOC, width := 5000, remNode := ⟨0, 0⟩ }]
      rank := 0
      cudaCompCap := 80
      pathsCpu := [2, 1, 1] }
    (by decide) (by decide)
    (fun j node' hj hnode => by
      exfalso
      have : (typeNodes sC6 GPU).length ≤ j := by
        have h1 : (typeNodes sC6 GPU).length = 1 := by decide
        omega
      rw [List.getElem?_eq_none this] at hnode
      exact Option.noConfusion hnode)
    (by decide)

/-! ## Grounding the scenario graph in hardware ingestion

The C5 witness and the C10 counterexample both run on `sC5`.  This section
shows that graph is not hand-picked: `ncclTopoAddCpu` builds exactly `sC5`
from the spec's own hardware description (one cpu over one pci switch over
one gpu, every link x16 gen3). -/

/-- The spec §8 scenario as a hardware description tree: cpu numaid 0
(x86_64 / GenuineIntel / family 6 / model 0x55) over a pci switch (class
0x060400, bus id 0x200) over a gpu (class 0x030200, bus id 0x2000, rank 0,
sm 80), both pci links 16 lanes at "8 GT/s". -/
def xmlScenario : ncclXmlCpu :=
  { numaid := 0
    affinity := none
    archStr := "x86_64"
    vendorStr := "GenuineIntel"
    familyId := 6
    modelId := 85
    pciSubs := [.mk "0x060400" 0x200 16 "8 GT/s" none none
      [.mk "0x030200" 0x2000 16 "8 GT/s"
        (some { dev := 0, rank := some 0, sm := 80, gdr := 0 }) none []]]
    nicSubs := [] }

/-- Ingestion of `xmlScenario`, step 1: the cpu node freshly created
(payload still `NCCL_TOPO_UNDEF`). -/
def sScen0 : ncclTopoSystem :=
  ⟨[[], [], [],
    [{ type := CPU, id := 0, links := [], arch := -1, vendor := -1, model := -1 }],
    [], []]⟩

/-- Step 2: after the arch/vendor/model refinement. -/
def sScen1 : ncclTopoSystem :=
  ⟨[[], [], [],
    [{ type := CPU, id := 0, links := [], arch := 1, vendor := 1, model := 2 }],
    [], []]⟩

/-- Step 3: the switch node created under the cpu. -/
def sScen2 : ncclTopoSystem :=
  ⟨[[], [{ type := PCI, id := 0x200, links := [] }], [],
    [{ type := CPU, id := 0, links := [], arch := 1, vendor := 1, model := 2 }],
    [], []]⟩

/-- Step 4: the gpu node created under the switch (loopback self-link,
payload still `NCCL_TOPO_UNDEF`). -/
def sScen3 : ncclTopoSystem :=
  ⟨[[{ type := GPU
       id := 0x2000
       links := [{ type := LINK_LOC, width := 5000, remNode := ⟨0, 0⟩ }]
       rank := -1
       dev := -1
       cudaCompCap := -1 }],
    [{ type := PCI, id := 0x200, links := [] }], [],
    [{ type := CPU, id := 0, links := [], arch := 1, vendor := 1, model := 2 }],
    [], []]⟩

/-- Step 5: the gpu payload copied from the description. -/
def sScen4 : ncclTopoSystem :=
  ⟨[[{ type := GPU
       id := 0x2000
       links := [{ type := LINK_LOC, width := 5000, remNode := ⟨0, 0⟩ }]
       rank := 0
       dev := 0
       cudaCompCap := 80 }],
    [{ type := PCI, id := 0x200, links := [] }], [],
    [{ type := CPU, id := 0, links := [], arch := 1, vendor := 1, model := 2 }],
    [], []]⟩

/-- Step 6: the gpu↔switch edge pair added (width 16·60/80 = 12). -/
def sScen5 : ncclTopoSystem :=
  ⟨[[{ type := GPU
       id := 0x2000
       links := [{ type := LINK_LOC, width := 5000, remNode := ⟨0, 0⟩ },
                 { type := LINK_PCI, width := 12, remNode := ⟨1, 0⟩ }]
       rank := 0
       dev := 0
       cudaCompCap := 80 }],
    [{ type := PCI
       id := 0x200
       links := [{ type := LINK_PCI, width := 12, remNode := ⟨0, 0⟩ }] }],
    [],
    [{ type := CPU, id := 0, links := [], arch := 1, vendor := 1, model := 2 }],
    [], []]⟩

/-- Ingesting the switch under the cpu: create the switch, recurse into
the gpu leaf (create, copy the payload, connect to the switch), then
connect the switch to the cpu — so the switch's gpu-side link ends up in
front of its cpu uplink, the order `findLocalCpu` loops on. -/
theorem scen_switch :
    ncclTopoAddPci
      (.mk "0x060400" 0x200 16 "8 GT/s" none none
        [.mk "0x030200" 0x2000 16 "8 GT/s"
          (some { dev := 0, rank := some 0, sm := 80, gdr := 0 }) none []])
      sScen1 ⟨3, 0⟩ = some sC5 := by
  have h60 : kvConvertToInt? (pciLinkSpeedStr "8 GT/s") kvDictPciGen = some 60 := by
    decide
  have h12 : pciWidthVal 16 60 = 12 := by
    norm_num [pciWidthVal]
  have hclsP : kvConvertToInt? "0x060400" kvDictPciClass = some PCI := by decide
  have hclsG : kvConvertToInt? "0x030200" kvDictPciClass = some GPU := by decide
  have hng : (PCI = GPU) = False := eq_false (by decide)
  have hnn : (PCI = NIC) = False := eq_false (by decide)
  have hcrP : ncclTopoCreateNode sScen1 PCI 0x200 = some (sScen2, ⟨1, 0⟩) := by
    decide
  have hcrG : ncclTopoCreateNode sScen2 GPU 0x2000 = some (sScen3, ⟨0, 0⟩) := by
    decide
  have hgp : ncclTopoAddGpu { dev := 0, rank := some 0, sm := 80, gdr := 0 } 0
      sScen3 ⟨0, 0⟩ = sScen4 := by decide
  have hconnG : ncclTopoConnectNodes
      (ncclTopoConnectNodes sScen4 ⟨0, 0⟩ ⟨1, 0⟩ LINK_PCI 12)
      ⟨1, 0⟩ ⟨0, 0⟩ LINK_PCI 12 = sScen5 := by decide
  have hconnP : ncclTopoConnectNodes
      (ncclTopoConnectNodes sScen5 ⟨1, 0⟩ ⟨3, 0⟩ LINK_PCI 12)
      ⟨3, 0⟩ ⟨1, 0⟩ LINK_PCI 12 = sC5 := by decide
  simp only [ncclTopoAddPci, ncclTopoAddPciSubs, hclsP, hclsG, hng, hnn,
    if_false, eq_self_iff_true, if_true, hcrP, hcrG, hgp, pciConnectParent,
    h60, h12, hconnG, hconnP]

/-- The scenario graph is literally what ingestion builds: `ncclTopoAddCpu`
on `xmlScenario` returns `sC5` — in particular the link order the C10
divergence rests on (gpu child before cpu uplink on the switch, at equal
widths) is the order the code itself produces. -/
theorem scenario_ingested :
    ncclTopoAddCpu xmlScenario emptySystem = some sC5 := by
  have hn : xmlScenario.numaid = 0 := rfl
  have haff : xmlScenario.affinity = none := rfl
  have hsubs : xmlScenario.pciSubs =
      [.mk "0x060400" 0x200 16 "8 GT/s" none none
        [.mk "0x030200" 0x2000 16 "8 GT/s"
          (some { dev := 0, rank := some 0, sm := 80, gdr := 0 }) none []]] := rfl
  have hnic : xmlScenario.nicSubs = [] := rfl
  have hcr : ncclTopoCreateNode emptySystem CPU 0 = some (sScen0, ⟨3, 0⟩) := by
    decide
  have harch : addCpuArch xmlScenario sScen0 ⟨3, 0⟩ = some sScen1 := by decide
  simp only [ncclTopoAddCpu, hn, haff, hcr, harch, hsubs, hnic,
    ncclTopoAddPciSubs, scen_switch, addCpuNics]
